import Mathlib

/-!
Verification development for the green-index ("carbon passbook") scoring engine.
The Python source (carbon_passbook.py) is embedded shallowly over exact
rationals: every numeric value the program manipulates is modelled as a
rational number, Python `round(x, n)` is modelled as round-half-to-even at
`n` decimal digits, and fallible parsing returns `Option`.
-/

set_option maxRecDepth 4000

/-- Round-half-to-even of a rational to an integer, the semantics of
Python's built-in `round` on exact values. -/
def roundHE (q : ℚ) : ℤ :=
  let f : ℤ := ⌊q⌋
  let r : ℚ := q - f
  if r < 1/2 then f
  else if 1/2 < r then f + 1
  else if f % 2 = 0 then f else f + 1

/-- Model of Python `round(q, n)`: round half to even at `n` decimal digits. -/
def round_to (n : ℕ) (q : ℚ) : ℚ := (roundHE (q * 10 ^ n) : ℚ) / 10 ^ n

/-- A raw caller-supplied value: either a finite numeric value or anything
that `float(x)` rejects / that is non-finite (NaN, inf). -/
inductive RawVal where
  | num (q : ℚ)
  | invalid
deriving DecidableEq

/-- Model of `_nz`: coerce to a float, mapping failures and non-finite
values to `0.0`, then clamp below at `0.0`. -/
def _nz : RawVal → ℚ
  | .num q => max q 0
  | .invalid => 0

/-- Sanitization of a value already known to be a finite number. -/
def nzq (q : ℚ) : ℚ := max q 0

/-- A tier record: name, cashback rate, loan-rate adjustment and the extra
benefit description, exactly the dict returned by `grade_from_gi`. -/
structure Tier where
  level : String
  cashback : String
  loan_cut : String
  extra_rights : String
deriving DecidableEq

/-- Model of `grade_from_gi`: the if-chain over GI thresholds 80/60/40/20/10
with a final base band. -/
def grade_from_gi (gi : ℚ) : Tier :=
  if 80 ≤ gi then ⟨"鑽石級", "0.5%", "-0.5%", "ESG基金手續費全免、優先審核綠色貸款"⟩
  else if 60 ≤ gi then ⟨"白金級", "0.3%", "-0.3%", "ESG基金手續費5折"⟩
  else if 40 ≤ gi then ⟨"黃金級", "0.2%", "-0.2%", "綠色商品專屬折扣碼"⟩
  else if 20 ≤ gi then ⟨"銀級", "0.1%", "-0.1%", "月度碳足跡報告"⟩
  else if 10 ≤ gi then ⟨"銅級", "0%", "0%", "月度碳足跡報告"⟩
  else ⟨"銅級", "0%", "0%", "基本碳足跡查詢服務"⟩

/-- The next-tier target threshold and the (rounded) distance to it. -/
structure NextTarget where
  target : ℚ
  delta : ℚ
deriving DecidableEq

/-- Loop body of `_next_threshold`: scan the threshold list, returning the
first entry strictly above `gi`. -/
def nextLoop : List ℚ → ℚ → NextTarget
  | [], _ => ⟨100, 0⟩
  | t :: ts, gi => if gi < t then ⟨t, round_to 2 (max (t - gi) 0)⟩ else nextLoop ts gi

/-- Model of `_next_threshold` over the fixed threshold list. -/
def _next_threshold (gi : ℚ) : NextTarget :=
  nextLoop [0, 10, 20, 40, 60, 80, 100] gi

/-- Cap configuration, the `caps` dict with its three entries. -/
structure Caps where
  S1 : ℚ
  S2 : ℚ
  S3 : ℚ
deriving DecidableEq

/-- Weight configuration, the `weights` dict with its three entries. -/
structure Weights where
  S1 : ℚ
  S2 : ℚ
  S3 : ℚ
deriving DecidableEq

/-- A per-category triple of values, indexed S1/S2/S3. -/
structure Triple (α : Type) where
  S1 : α
  S2 : α
  S3 : α
deriving DecidableEq

def defaultCaps : Caps := ⟨40, 70, 80⟩

def defaultWeights : Weights := ⟨35/100, 45/100, 20/100⟩

/-- Model of `caps or {...}`: an absent configuration falls back to the default. -/
def capsOf (c : Option Caps) : Caps := c.getD defaultCaps

def weightsOf (w : Option Weights) : Weights := w.getD defaultWeights

/-- Weight-sum denominator `ws = sum(...) or 1.0`: the sanitized weight sum,
falling back to 1 when it is zero. -/
def wsOf (w : Weights) : ℚ :=
  let s := nzq w.S1 + nzq w.S2 + nzq w.S3
  if s = 0 then 1 else s

def w1Of (w : Weights) : ℚ := nzq w.S1 / wsOf w
def w2Of (w : Weights) : ℚ := nzq w.S2 / wsOf w
def w3Of (w : Weights) : ℚ := nzq w.S3 / wsOf w

/-- Auto-corrected total: if the category sum exceeds the stated total the
total is raised to the category sum. -/
def effTotal (t spent : ℚ) : ℚ := if spent > t then spent else t

/-- Residual "other" spending after auto-correction. -/
def otherOf (t spent : ℚ) : ℚ := max (effTotal t spent - spent) 0

/-- Display denominator guarded against zero. -/
def denomOf (t spent : ℚ) : ℚ :=
  if effTotal t spent > 0 then effTotal t spent else if spent > 0 then spent else 1

/-- Capped raw category score `min(100 * amount / divisor, cap)`. -/
def rawScore (amt divisor cap : ℚ) : ℚ := min (100 * (amt / divisor)) cap

/-- Normalized 0-100 sub-score, 0 when the cap is zero. -/
def normScore (raw cap : ℚ) : ℚ := if cap = 0 then 0 else raw / cap * 100

/-- Clamp of the composite score into [0, 100]. -/
def clampGI (g : ℚ) : ℚ := max 0 (min g 100)

/-- Exact (pre-rounding) composite GI of sanitized amounts under a configuration. -/
def giExact (a b c : ℚ) (caps : Caps) (w : Weights) : ℚ :=
  clampGI (w1Of w * normScore (rawScore a 4000 caps.S1) caps.S1
         + w2Of w * normScore (rawScore b 7000 caps.S2) caps.S2
         + w3Of w * normScore (rawScore c 8000 caps.S3) caps.S3)

/-- Per-currency-unit marginal GI slope of a category; zero once the raw
score has hit the cap, with the `cap or 1.0` guard on the divisor. -/
def slopeOf (w raw cap divisor : ℚ) : ℚ :=
  if raw < cap then w * (100 / (if cap = 0 then 1 else cap)) * (100 / divisor) else 0

/-- Suggested extra spend for one category: the gap divided by the slope,
rounded to a whole unit, or none when the slope is not positive. -/
def suggOf (delta m : ℚ) : Option ℚ :=
  if 0 < m then some (round_to 0 (max (delta / m) 0)) else none

/-- Sanitized input echo in a score result. -/
structure Inputs where
  total : ℚ
  s1 : ℚ
  s2 : ℚ
  s3 : ℚ
deriving DecidableEq

/-- The full result dict of `compute_scores`. -/
structure ScoreResult where
  inputs : Inputs
  labels : List String
  values : List ℚ
  percents : List ℚ
  spent : ℚ
  other : ℚ
  s_scores : Triple ℚ
  s_norms : Triple ℚ
  gi : ℚ
  level : String
  reward : String
  extra_rights : String
  next_target : NextTarget
  suggestions : Triple (Option ℚ)
  caps : Caps
  weights : Triple ℚ

/-- Model of `compute_scores`, line by line from the source. -/
def compute_scores (total s1 s2 s3 : RawVal)
    (capsIn : Option Caps) (weightsIn : Option Weights) : ScoreResult :=
  let caps := capsOf capsIn
  let weights := weightsOf weightsIn
  let w1 := w1Of weights
  let w2 := w2Of weights
  let w3 := w3Of weights
  let t := _nz total
  let a := _nz s1
  let b := _nz s2
  let c := _nz s3
  let spent := a + b + c
  let T := effTotal t spent
  let other := otherOf t spent
  let denom := denomOf t spent
  let r1 := rawScore a 4000 caps.S1
  let r2 := rawScore b 7000 caps.S2
  let r3 := rawScore c 8000 caps.S3
  let n1 := normScore r1 caps.S1
  let n2 := normScore r2 caps.S2
  let n3 := normScore r3 caps.S3
  let gi := clampGI (w1 * n1 + w2 * n2 + w3 * n3)
  let tier := grade_from_gi gi
  let nxt := _next_threshold gi
  let m1 := slopeOf w1 r1 caps.S1 4000
  let m2 := slopeOf w2 r2 caps.S2 7000
  let m3 := slopeOf w3 r3 caps.S3 8000
  let values := [round_to 2 a, round_to 2 b, round_to 2 c, round_to 2 other]
  { inputs := ⟨T, a, b, c⟩
  , labels := ["S1 日常綠色", "S2 耐用品減碳", "S3 二手循環", "其他"]
  , values := values
  , percents := values.map (fun v => round_to 1 (v / denom * 100))
  , spent := round_to 2 spent
  , other := round_to 2 other
  , s_scores := ⟨round_to 2 r1, round_to 2 r2, round_to 2 r3⟩
  , s_norms := ⟨round_to 2 n1, round_to 2 n2, round_to 2 n3⟩
  , gi := round_to 2 gi
  , level := tier.level
  , reward := "次月現金回饋率 " ++ tier.cashback ++ "，綠色貸款利率減碼 " ++ tier.loan_cut
  , extra_rights := tier.extra_rights
  , next_target := nxt
  , suggestions := ⟨suggOf nxt.delta m1, suggOf nxt.delta m2, suggOf nxt.delta m3⟩
  , caps := caps
  , weights := ⟨round_to 4 w1, round_to 4 w2, round_to 4 w3⟩ }

/-! Date parsing and monthly aggregation. -/

/-- A parsed calendar date. -/
structure Date where
  y : ℕ
  m : ℕ
  d : ℕ
deriving DecidableEq

/-- Digit list to number. -/
def toN (l : List Char) : ℕ := l.foldl (fun n c => 10 * n + (c.toNat - 48)) 0

/-- Match the strptime pattern "4 digits, sep, 1-2 digits, sep, 1-2 digits"
against the whole character list. -/
def parseSep (sep : Char) (l : List Char) : Option (ℕ × ℕ × ℕ) :=
  let p1 := l.span Char.isDigit
  match p1.2 with
  | c :: r2 =>
    if p1.1.length = 4 ∧ c = sep then
      let p2 := r2.span Char.isDigit
      match p2.2 with
      | c2 :: r4 =>
        if (p2.1.length = 1 ∨ p2.1.length = 2) ∧ c2 = sep then
          let p3 := r4.span Char.isDigit
          if (p3.1.length = 1 ∨ p3.1.length = 2) ∧ p3.2 = [] then
            some (toN p1.1, toN p2.1, toN p3.1)
          else none
        else none
      | [] => none
    else none
  | [] => none

/-- Match the strptime pattern "%Y%m%d" (greedy month with backtracking)
against an all-digit list of length 6, 7 or 8. -/
def parseCompact (l : List Char) : Option (ℕ × ℕ × ℕ) :=
  if l.all Char.isDigit then
    if l.length = 8 then some (toN (l.take 4), toN ((l.drop 4).take 2), toN (l.drop 6))
    else if l.length = 7 then some (toN (l.take 4), toN ((l.drop 4).take 2), toN (l.drop 6))
    else if l.length = 6 then some (toN (l.take 4), toN ((l.drop 4).take 1), toN (l.drop 5))
    else none
  else none

def isLeap (y : ℕ) : Bool := y % 4 = 0 && (y % 100 ≠ 0 || y % 400 = 0)

def daysInMonth (y m : ℕ) : ℕ :=
  if m = 2 then (if isLeap y then 29 else 28)
  else if m = 4 ∨ m = 6 ∨ m = 9 ∨ m = 11 then 30 else 31

/-- Calendar validation performed by the datetime constructor. -/
def validYMD (y m d : ℕ) : Bool :=
  1 ≤ y && y ≤ 9999 && 1 ≤ m && m ≤ 12 && 1 ≤ d && d ≤ daysInMonth y m

/-- Try one textual form: pattern match, then calendar validation; any
failure falls through to the next form. -/
def tryFmt (p : List Char → Option (ℕ × ℕ × ℕ)) (l : List Char) : Option Date :=
  match p l with
  | some (y, m, d) => if validYMD y m d then some ⟨y, m, d⟩ else none
  | none => none

/-- Strip of leading and trailing whitespace, over the character list. -/
def stripChars (l : List Char) : List Char :=
  ((l.dropWhile Char.isWhitespace).reverse.dropWhile Char.isWhitespace).reverse

/-- Model of `_parse_date`: strip, then try the four accepted forms in order. -/
def _parse_date (s : String) : Option Date :=
  let l := stripChars s.toList
  (tryFmt (parseSep '-') l) <|> (tryFmt (parseSep '/') l)
    <|> (tryFmt (parseSep '.') l) <|> (tryFmt parseCompact l)

/-- Zero-pad a number to 4 digits, the `%Y` field of the month key. -/
def pad4 (n : ℕ) : String :=
  (if n < 10 then "000" else if n < 100 then "00" else if n < 1000 then "0" else "") ++ toString n

/-- Zero-pad a number to 2 digits, the `%m` field of the month key. -/
def pad2 (n : ℕ) : String := (if n < 10 then "0" else "") ++ toString n

/-- Month bucket key, `dt.strftime("%Y-%m")`. -/
def fmtYM (y m : ℕ) : String := pad4 y ++ "-" ++ pad2 m

/-- A raw imported record, as stored in the history file. -/
structure Receipt where
  date : String
  category : String
  amount : RawVal
deriving DecidableEq

/-- Uppercased category of a record. -/
def catOf (r : Receipt) : String := String.mk (r.category.toList.map Char.toUpper)

/-- Month key of a record, when its date parses. -/
def monthKeyOf (r : Receipt) : Option String :=
  (_parse_date r.date).map (fun d => fmtYM d.y d.m)

/-- Category/amount validity test shared by the aggregator: the uppercased
category belongs to {S1, S2, S3, OTHER} and the sanitized amount is positive. -/
def catAmtOk (r : Receipt) : Bool :=
  decide ((catOf r = "S1" ∨ catOf r = "S2" ∨ catOf r = "S3" ∨ catOf r = "OTHER")
    ∧ 0 < _nz r.amount)

/-- A record survives aggregation iff its date parses, its uppercased
category is recognized and its sanitized amount is positive. -/
def keepRec (r : Receipt) : Bool := (monthKeyOf r).isSome && catAmtOk r

/-- One month's category sums. -/
structure Bucket where
  s1 : ℚ
  s2 : ℚ
  s3 : ℚ
  other : ℚ
deriving DecidableEq

def zeroB : Bucket := ⟨0, 0, 0, 0⟩

def addB (a b : Bucket) : Bucket := ⟨a.s1 + b.s1, a.s2 + b.s2, a.s3 + b.s3, a.other + b.other⟩

/-- Add an amount to the field selected by the (uppercased) category. -/
def addCatB (cat : String) (amt : ℚ) (b : Bucket) : Bucket :=
  if cat = "S1" then { b with s1 := b.s1 + amt }
  else if cat = "S2" then { b with s2 := b.s2 + amt }
  else if cat = "S3" then { b with s3 := b.s3 + amt }
  else { b with other := b.other + amt }

/-- Bucket state: the keys in insertion order plus the per-month sums
(the defaultdict's total function). -/
structure BuckSt where
  keys : List String
  f : String → Bucket

/-- One step of the aggregation loop over records. -/
def stepBucket (st : BuckSt) (r : Receipt) : BuckSt :=
  match monthKeyOf r with
  | none => st
  | some key =>
    if catAmtOk r then
      ⟨(if st.keys.contains key then st.keys else st.keys ++ [key]),
       fun m => if m = key then addCatB (catOf r) (_nz r.amount) (st.f m) else st.f m⟩
    else st

/-- One row of the monthly series. -/
structure MonthRow where
  month : String
  s1 : ℚ
  s2 : ℚ
  s3 : ℚ
  other : ℚ
  total : ℚ
  gi : ℚ
  level : String

/-- Build one series row from a month's bucket, attaching the default-config
GI snapshot. -/
def mkRow (m : String) (b : Bucket) : MonthRow :=
  let total := b.s1 + b.s2 + b.s3 + b.other
  let met := compute_scores (.num total) (.num b.s1) (.num b.s2) (.num b.s3) none none
  ⟨m, round_to 2 b.s1, round_to 2 b.s2, round_to 2 b.s3, round_to 2 b.other,
   round_to 2 total, met.gi, met.level⟩

/-- Model of `aggregate_monthly`: fold the records into buckets, emit one row
per key and sort ascending by month. -/
def aggregate_monthly (recs : List Receipt) : List MonthRow :=
  let st := recs.foldl stepBucket ⟨[], fun _ => zeroB⟩
  List.insertionSort (fun x y => x.month ≤ y.month) (st.keys.map (fun m => mkRow m (st.f m)))

/-! Rolling 12-month window. -/

/-- A rolling-average output point. -/
structure RollPoint where
  month : String
  gi12m : ℚ
  level12m : String
deriving DecidableEq

/-- One window update of `rolling_12m`: append the new GI to the deque and
its running sum, then evict the oldest entry once the length exceeds 12. -/
def rollStep (win : List ℚ) (sg gi : ℚ) : List ℚ × ℚ :=
  let win1 := win ++ [gi]
  let sg1 := sg + gi
  if 12 < win1.length then (win1.tail, sg1 - win1.headD 0) else (win1, sg1)

/-- Loop of `rolling_12m`, carrying the window deque and its running sum. -/
def rollAux : List ℚ → ℚ → List MonthRow → List RollPoint
  | _, _, [] => []
  | win, sg, row :: rest =>
    let st := rollStep win sg row.gi
    ⟨row.month, round_to 2 (st.2 / (st.1.length : ℚ)),
     (grade_from_gi (st.2 / (st.1.length : ℚ))).level⟩ :: rollAux st.1 st.2 rest

/-- Model of `rolling_12m`. -/
def rolling_12m (series : List MonthRow) : List RollPoint := rollAux [] 0 series

/-- Last `n` elements of a list. -/
def lastN (n : ℕ) (l : List ℚ) : List ℚ := l.drop (l.length - n)

/-! Backsolve planner (the JS `backsolve` function in the page template). -/

/-- Planner state: the four spend fields plus the last computed (rounded) GI. -/
structure BState where
  total : ℚ
  s1 : ℚ
  s2 : ℚ
  s3 : ℚ
  gi : ℚ
deriving DecidableEq

/-- A spend category. -/
inductive Cat where
  | S1
  | S2
  | S3
deriving DecidableEq

/-- Suggestions reported by `compute` at the current planner state. -/
def suggAt (caps : Option Caps) (w : Option Weights) (st : BState) : Triple (Option ℚ) :=
  (compute_scores (.num st.total) (.num st.s1) (.num st.s2) (.num st.s3) caps w).suggestions

/-- Non-null suggestion entries in S1/S2/S3 order, as `Object.entries` + filter. -/
def entriesOf (t : Triple (Option ℚ)) : List (Cat × ℚ) :=
  ([(Cat.S1, t.S1), (Cat.S2, t.S2), (Cat.S3, t.S3)]).filterMap
    (fun p => p.2.map (fun v => (p.1, v)))

/-- First minimal element of a candidate list (stable ascending sort, head). -/
def pickMin : List (Cat × ℚ) → Option (Cat × ℚ) → Option (Cat × ℚ)
  | [], acc => acc
  | p :: ps, acc =>
    match acc with
    | none => pickMin ps (some p)
    | some q => pickMin ps (some (if p.2 < q.2 then p else q))

/-- The chosen category: the non-null suggestion with the smallest value,
ties resolved in S1/S2/S3 order. -/
def pickCand (t : Triple (Option ℚ)) : Option (Cat × ℚ) := pickMin (entriesOf t) none

/-- Add the fixed 100-unit step to one category and to the total. -/
def addCat : Cat → BState → BState
  | .S1, st => { st with s1 := st.s1 + 100, total := st.total + 100 }
  | .S2, st => { st with s2 := st.s2 + 100, total := st.total + 100 }
  | .S3, st => { st with s3 := st.s3 + 100, total := st.total + 100 }

/-- Refresh the tracked GI from `compute` after a step. -/
def refreshGi (caps : Option Caps) (w : Option Weights) (st : BState) : BState :=
  { st with gi :=
      (compute_scores (.num st.total) (.num st.s1) (.num st.s2) (.num st.s3) caps w).gi }

/-- One loop iteration: step the chosen category then recompute GI. -/
def bstep (caps : Option Caps) (w : Option Weights) (k : Cat) (st : BState) : BState :=
  refreshGi caps w (addCat k st)

/-- The guarded backsolve loop; returns the final state and the number of
iterations that performed a step. -/
def backLoop (caps : Option Caps) (w : Option Weights) (target : ℚ) :
    ℕ → BState → BState × ℕ
  | 0, st => (st, 0)
  | fuel + 1, st =>
    if st.gi < target then
      match pickCand (suggAt caps w st) with
      | none => (st, 0)
      | some kv =>
        let r := backLoop caps w target fuel (bstep caps w kv.1 st)
        (r.1, r.2 + 1)
    else (st, 0)

/-- Model of the JS `backsolve`: compute the base point, return immediately
when already at target, else run the guarded loop from the sanitized inputs. -/
def backsolve (caps : Option Caps) (w : Option Weights) (target : ℚ)
    (total s1 s2 s3 : RawVal) : BState × ℕ :=
  let base := compute_scores total s1 s2 s3 caps w
  let st0 : BState := ⟨base.inputs.total, base.inputs.s1, base.inputs.s2, base.inputs.s3, base.gi⟩
  if target ≤ base.gi then (st0, 0) else backLoop caps w target 2000 st0

/-! Basic facts about the rounding model. -/

theorem roundHE_nonneg {q : ℚ} (h : 0 ≤ q) : 0 ≤ roundHE q := by
  unfold roundHE
  have hf : (0 : ℤ) ≤ ⌊q⌋ := Int.floor_nonneg.mpr h
  dsimp only
  split_ifs <;> omega

theorem roundHE_le {q : ℚ} {n : ℤ} (h : q ≤ (n : ℚ)) : roundHE q ≤ n := by
  unfold roundHE
  have hf : ⌊q⌋ ≤ n := by
    have := Int.floor_le_floor h
    simpa using this
  dsimp only
  split_ifs with h1 h2 h3
  · exact hf
  · have hq : (⌊q⌋ : ℚ) + 1/2 ≤ q := by
      have hr : 1/2 ≤ q - (⌊q⌋ : ℚ) := not_lt.mp h1
      linarith
    have hlt : (⌊q⌋ : ℚ) < (n : ℚ) := by linarith
    have : ⌊q⌋ < n := by exact_mod_cast hlt
    omega
  · exact hf
  · have hq : (⌊q⌋ : ℚ) + 1/2 ≤ q := by
      have hr : 1/2 ≤ q - (⌊q⌋ : ℚ) := not_lt.mp h1
      linarith
    have hlt : (⌊q⌋ : ℚ) < (n : ℚ) := by linarith
    have : ⌊q⌋ < n := by exact_mod_cast hlt
    omega

theorem round_to_zero (n : ℕ) : round_to n 0 = 0 := by
  unfold round_to roundHE
  norm_num

theorem round_to_nonneg {n : ℕ} {q : ℚ} (h : 0 ≤ q) : 0 ≤ round_to n q := by
  unfold round_to
  have h1 : 0 ≤ roundHE (q * 10 ^ n) := roundHE_nonneg (by positivity)
  have h2 : (0 : ℚ) ≤ (roundHE (q * 10 ^ n) : ℚ) := by exact_mod_cast h1
  positivity

theorem round_to_le_int (n : ℕ) (q : ℚ) (m : ℤ) (h : q ≤ (m : ℚ)) : round_to n q ≤ (m : ℚ) := by
  unfold round_to
  have hp : (0 : ℚ) < 10 ^ n := by positivity
  have h1 : roundHE (q * 10 ^ n) ≤ m * 10 ^ n := by
    apply roundHE_le
    push_cast
    nlinarith
  rw [div_le_iff₀ hp]
  have h2 : (roundHE (q * 10 ^ n) : ℚ) ≤ ((m * 10 ^ n : ℤ) : ℚ) := by exact_mod_cast h1
  push_cast at h2
  linarith

theorem round_to_le_100 {n : ℕ} {q : ℚ} (h : q ≤ 100) : round_to n q ≤ 100 := by
  have := round_to_le_int n q 100 (by exact_mod_cast h)
  exact_mod_cast this

theorem clampGI_nonneg (g : ℚ) : 0 ≤ clampGI g := le_max_left _ _

theorem clampGI_le_100 (g : ℚ) : clampGI g ≤ 100 := max_le (by norm_num) (min_le_right _ _)

/-- C1: for arbitrary raw input amounts (sanitized internally) and any
caps/weights configuration (default or caller-supplied finite entries), the
composite score field `gi` returned by `compute_scores` lies in [0, 100]. -/
theorem c1_gi_in_unit_range (total s1 s2 s3 : RawVal)
    (capsIn : Option Caps) (weightsIn : Option Weights) :
    0 ≤ (compute_scores total s1 s2 s3 capsIn weightsIn).gi ∧
      (compute_scores total s1 s2 s3 capsIn weightsIn).gi ≤ 100 := by
  have hgi : (compute_scores total s1 s2 s3 capsIn weightsIn).gi
      = round_to 2 (giExact (_nz s1) (_nz s2) (_nz s3) (capsOf capsIn) (weightsOf weightsIn)) := rfl
  rw [hgi]
  unfold giExact
  exact ⟨round_to_nonneg (clampGI_nonneg _), round_to_le_100 (clampGI_le_100 _)⟩

/-- C5: whenever the sanitized category amounts sum to more than the
sanitized total, `compute_scores` reports `other = 0` and echoes the
auto-corrected total `s1+s2+s3` in `inputs.total`, raising no error. -/
theorem c5_autocorrect (total s1 s2 s3 : RawVal)
    (capsIn : Option Caps) (weightsIn : Option Weights)
    (h : _nz total < _nz s1 + _nz s2 + _nz s3) :
    (compute_scores total s1 s2 s3 capsIn weightsIn).other = 0 ∧
      (compute_scores total s1 s2 s3 capsIn weightsIn).inputs.total
        = _nz s1 + _nz s2 + _nz s3 := by
  have ho : (compute_scores total s1 s2 s3 capsIn weightsIn).other
      = round_to 2 (otherOf (_nz total) (_nz s1 + _nz s2 + _nz s3)) := rfl
  have ht : (compute_scores total s1 s2 s3 capsIn weightsIn).inputs.total
      = effTotal (_nz total) (_nz s1 + _nz s2 + _nz s3) := rfl
  have he : effTotal (_nz total) (_nz s1 + _nz s2 + _nz s3) = _nz s1 + _nz s2 + _nz s3 :=
    if_pos h
  refine ⟨?_, by rw [ht, he]⟩
  rw [ho]
  unfold otherOf
  rw [he]
  simp [round_to_zero]

theorem c5_witness :
    _nz (.num 100) < _nz (.num 200) + _nz (.num 0) + _nz (.num 0) ∧
      (compute_scores (.num 100) (.num 200) (.num 0) (.num 0) none none).other = 0 ∧
      (compute_scores (.num 100) (.num 200) (.num 0) (.num 0) none none).inputs.total
        = _nz (.num 200) + _nz (.num 0) + _nz (.num 0) :=
  ⟨by norm_num [_nz], c5_autocorrect (.num 100) (.num 200) (.num 0) (.num 0) none none
    (by norm_num [_nz])⟩

/-- The spec's Example 1 input. -/
def ex1 : ScoreResult :=
  compute_scores (.num 5000) (.num 1000) (.num 2000) (.num 500) none none

/-- C2 counterexample: on `compute_scores(5000,1000,2000,500)` with the
default configuration the code yields GI = 41.8 and tier 黃金級 (Gold), not
GI ≈ 32.7 with tier 銀級 (Silver) as claimed. -/
theorem c2_counterexample :
    ex1.level ≠ "銀級" ∧ ex1.gi ≠ 327/10 ∧ ex1.level = "黃金級" := by
  norm_num [ex1, compute_scores, capsOf, weightsOf, defaultCaps, defaultWeights,
    wsOf, w1Of, w2Of, w3Of, nzq, _nz, effTotal, otherOf, denomOf, rawScore, normScore,
    clampGI, grade_from_gi, round_to, roundHE, max_def, min_def]
  decide

/-- C2 amended: `compute_scores(5000,1000,2000,500)` with default caps and
weights returns raw scores S1 = 25, S2 = 28.57, S3 = 6.25, composite
GI = 41.8, and tier 黃金級 (Gold). -/
theorem c2_amended :
    ex1.s_scores = ⟨25, 2857/100, 25/4⟩ ∧ ex1.gi = 209/5 ∧ ex1.level = "黃金級" := by
  norm_num [ex1, compute_scores, capsOf, weightsOf, defaultCaps, defaultWeights,
    wsOf, w1Of, w2Of, w3Of, nzq, _nz, effTotal, otherOf, denomOf, rawScore, normScore,
    clampGI, grade_from_gi, round_to, roundHE, max_def, min_def, Triple.mk.injEq]

/-- C4 counterexample: the 0-band and 10-band tiers share the name, cashback
and loan adjustment, but their extra-benefit descriptions differ, so the two
records are not equal in all fields. -/
theorem c4_counterexample :
    (grade_from_gi 5).level = (grade_from_gi 15).level ∧
      (grade_from_gi 5).cashback = (grade_from_gi 15).cashback ∧
      (grade_from_gi 5).loan_cut = (grade_from_gi 15).loan_cut ∧
      (grade_from_gi 5).extra_rights ≠ (grade_from_gi 15).extra_rights ∧
      grade_from_gi 5 ≠ grade_from_gi 15 := by decide

/-- C4 amended: for every gi_a in [0,10) and gi_b in [10,20) the two tier
records agree on name, cashback rate and loan-rate adjustment, but carry the
two distinct extra-benefit descriptions of the 0 and 10 bands. -/
theorem c4_amended (a b : ℚ) (_ha0 : 0 ≤ a) (ha : a < 10) (hb0 : 10 ≤ b) (hb : b < 20) :
    (grade_from_gi a).level = (grade_from_gi b).level ∧
      (grade_from_gi a).cashback = (grade_from_gi b).cashback ∧
      (grade_from_gi a).loan_cut = (grade_from_gi b).loan_cut ∧
      (grade_from_gi a).extra_rights = "基本碳足跡查詢服務" ∧
      (grade_from_gi b).extra_rights = "月度碳足跡報告" := by
  have hga : grade_from_gi a = ⟨"銅級", "0%", "0%", "基本碳足跡查詢服務"⟩ := by
    unfold grade_from_gi
    rw [if_neg (not_le.mpr (by linarith)), if_neg (not_le.mpr (by linarith)),
      if_neg (not_le.mpr (by linarith)), if_neg (not_le.mpr (by linarith)),
      if_neg (not_le.mpr (by linarith))]
  have hgb : grade_from_gi b = ⟨"銅級", "0%", "0%", "月度碳足跡報告"⟩ := by
    unfold grade_from_gi
    rw [if_neg (not_le.mpr (by linarith)), if_neg (not_le.mpr (by linarith)),
      if_neg (not_le.mpr (by linarith)), if_neg (not_le.mpr (by linarith)), if_pos hb0]
  rw [hga, hgb]
  exact ⟨rfl, rfl, rfl, rfl, rfl⟩

theorem c4_amended_witness :
    (grade_from_gi 5).level = (grade_from_gi 15).level ∧
      (grade_from_gi 5).cashback = (grade_from_gi 15).cashback ∧
      (grade_from_gi 5).loan_cut = (grade_from_gi 15).loan_cut ∧
      (grade_from_gi 5).extra_rights = "基本碳足跡查詢服務" ∧
      (grade_from_gi 15).extra_rights = "月度碳足跡報告" :=
  c4_amended 5 15 (by norm_num) (by norm_num) (by norm_num) (by norm_num)

/-- Threshold lower bounds of the tier table, ascending. -/
def thresholds6 : List ℚ := [0, 10, 20, 40, 60, 80]

/-- Lower bound of the band the tier lookup selects, following the spec's
"highest threshold not exceeding gi" vocabulary over the code's if-chain. -/
def tierBand (gi : ℚ) : ℚ :=
  if 80 ≤ gi then 80 else if 60 ≤ gi then 60 else if 40 ≤ gi then 40
  else if 20 ≤ gi then 20 else if 10 ≤ gi then 10 else 0

/-- Rank of the selected band: its position in the ascending threshold order. -/
def tierRank (gi : ℚ) : ℕ :=
  if 80 ≤ gi then 5 else if 60 ≤ gi then 4 else if 40 ≤ gi then 3
  else if 20 ≤ gi then 2 else if 10 ≤ gi then 1 else 0

/-- C3: the tier lookup returns the tier of the highest threshold in
{0,10,20,40,60,80} not exceeding the given GI (for non-negative GI), and
the rank of the returned tier is monotone non-decreasing in GI. -/
theorem c3_tier_lookup_monotone (a b : ℚ) :
    (0 ≤ a →
      tierBand a ∈ thresholds6 ∧ tierBand a ≤ a ∧
        (∀ t ∈ thresholds6, t ≤ a → t ≤ tierBand a) ∧
        grade_from_gi a = grade_from_gi (tierBand a)) ∧
    (a ≤ b → tierRank a ≤ tierRank b) := by
  constructor
  · intro ha0
    rcases le_or_lt 80 a with h1 | h1
    · have hband : tierBand a = 80 := by unfold tierBand; rw [if_pos h1]
      rw [hband]
      refine ⟨by norm_num [thresholds6], h1, ?_, ?_⟩
      · intro t ht htle
        simp only [thresholds6, List.mem_cons, List.not_mem_nil, or_false] at ht
        rcases ht with rfl | rfl | rfl | rfl | rfl | rfl <;> norm_num
      · unfold grade_from_gi
        rw [if_pos h1, if_pos (by norm_num : (80:ℚ) ≤ 80)]
    · rcases le_or_lt 60 a with h2 | h2
      · have hband : tierBand a = 60 := by
          unfold tierBand; rw [if_neg (not_le.mpr h1), if_pos h2]
        rw [hband]
        refine ⟨by norm_num [thresholds6], h2, ?_, ?_⟩
        · intro t ht htle
          simp only [thresholds6, List.mem_cons, List.not_mem_nil, or_false] at ht
          rcases ht with rfl | rfl | rfl | rfl | rfl | rfl <;> linarith
        · unfold grade_from_gi
          rw [if_neg (not_le.mpr h1), if_pos h2, if_neg (by norm_num : ¬(80:ℚ) ≤ 60),
            if_pos (by norm_num : (60:ℚ) ≤ 60)]
      · rcases le_or_lt 40 a with h3 | h3
        · have hband : tierBand a = 40 := by
            unfold tierBand; rw [if_neg (not_le.mpr h1), if_neg (not_le.mpr h2), if_pos h3]
          rw [hband]
          refine ⟨by norm_num [thresholds6], h3, ?_, ?_⟩
          · intro t ht htle
            simp only [thresholds6, List.mem_cons, List.not_mem_nil, or_false] at ht
            rcases ht with rfl | rfl | rfl | rfl | rfl | rfl <;> linarith
          · unfold grade_from_gi
            rw [if_neg (not_le.mpr h1), if_neg (not_le.mpr h2), if_pos h3,
              if_neg (by norm_num : ¬(80:ℚ) ≤ 40), if_neg (by norm_num : ¬(60:ℚ) ≤ 40),
              if_pos (by norm_num : (40:ℚ) ≤ 40)]
        · rcases le_or_lt 20 a with h4 | h4
          · have hband : tierBand a = 20 := by
              unfold tierBand
              rw [if_neg (not_le.mpr h1), if_neg (not_le.mpr h2), if_neg (not_le.mpr h3),
                if_pos h4]
            rw [hband]
            refine ⟨by norm_num [thresholds6], h4, ?_, ?_⟩
            · intro t ht htle
              simp only [thresholds6, List.mem_cons, List.not_mem_nil, or_false] at ht
              rcases ht with rfl | rfl | rfl | rfl | rfl | rfl <;> linarith
            · unfold grade_from_gi
              rw [if_neg (not_le.mpr h1), if_neg (not_le.mpr h2), if_neg (not_le.mpr h3),
                if_pos h4, if_neg (by norm_num : ¬(80:ℚ) ≤ 20),
                if_neg (by norm_num : ¬(60:ℚ) ≤ 20), if_neg (by norm_num : ¬(40:ℚ) ≤ 20),
                if_pos (by norm_num : (20:ℚ) ≤ 20)]
          · rcases le_or_lt 10 a with h5 | h5
            · have hband : tierBand a = 10 := by
                unfold tierBand
                rw [if_neg (not_le.mpr h1), if_neg (not_le.mpr h2), if_neg (not_le.mpr h3),
                  if_neg (not_le.mpr h4), if_pos h5]
              rw [hband]
              refine ⟨by norm_num [thresholds6], h5, ?_, ?_⟩
              · intro t ht htle
                simp only [thresholds6, List.mem_cons, List.not_mem_nil, or_false] at ht
                rcases ht with rfl | rfl | rfl | rfl | rfl | rfl <;> linarith
              · unfold grade_from_gi
                rw [if_neg (not_le.mpr h1), if_neg (not_le.mpr h2), if_neg (not_le.mpr h3),
                  if_neg (not_le.mpr h4), if_pos h5, if_neg (by norm_num : ¬(80:ℚ) ≤ 10),
                  if_neg (by norm_num : ¬(60:ℚ) ≤ 10), if_neg (by norm_num : ¬(40:ℚ) ≤ 10),
                  if_neg (by norm_num : ¬(20:ℚ) ≤ 10), if_pos (by norm_num : (10:ℚ) ≤ 10)]
            · have hband : tierBand a = 0 := by
                unfold tierBand
                rw [if_neg (not_le.mpr h1), if_neg (not_le.mpr h2), if_neg (not_le.mpr h3),
                  if_neg (not_le.mpr h4), if_neg (not_le.mpr h5)]
              rw [hband]
              refine ⟨by norm_num [thresholds6], ha0, ?_, ?_⟩
              · intro t ht htle
                simp only [thresholds6, List.mem_cons, List.not_mem_nil, or_false] at ht
                rcases ht with rfl | rfl | rfl | rfl | rfl | rfl <;> linarith
              · unfold grade_from_gi
                rw [if_neg (not_le.mpr h1), if_neg (not_le.mpr h2), if_neg (not_le.mpr h3),
                  if_neg (not_le.mpr h4), if_neg (not_le.mpr h5),
                  if_neg (by norm_num : ¬(80:ℚ) ≤ 0), if_neg (by norm_num : ¬(60:ℚ) ≤ 0),
                  if_neg (by norm_num : ¬(40:ℚ) ≤ 0), if_neg (by norm_num : ¬(20:ℚ) ≤ 0),
                  if_neg (by norm_num : ¬(10:ℚ) ≤ 0)]
  · intro hab
    unfold tierRank
    split_ifs <;> first | (exfalso; linarith) | norm_num

theorem c3_tier_witness :
    tierBand 25 ∈ thresholds6 ∧ tierBand 25 ≤ 25 ∧
      grade_from_gi 25 = grade_from_gi (tierBand 25) ∧ tierRank 25 ≤ tierRank 63 :=
  ⟨((c3_tier_lookup_monotone 25 63).1 (by norm_num)).1,
   ((c3_tier_lookup_monotone 25 63).1 (by norm_num)).2.1,
   ((c3_tier_lookup_monotone 25 63).1 (by norm_num)).2.2.2,
   (c3_tier_lookup_monotone 25 63).2 (by norm_num)⟩

theorem nz_nonneg (v : RawVal) : 0 ≤ _nz v := by
  cases v <;> simp [_nz]

theorem slopeOf_zero_of_cap_zero (w amt divisor : ℚ) (ha : 0 ≤ amt) (hd : 0 < divisor) :
    slopeOf w (rawScore amt divisor 0) 0 divisor = 0 := by
  unfold slopeOf rawScore
  rw [if_neg]
  rw [not_lt]
  exact le_min (by positivity) le_rfl

theorem normScore_cap_zero (raw : ℚ) : normScore raw 0 = 0 := by simp [normScore]

theorem suggOf_zero (delta : ℚ) : suggOf delta 0 = none := by simp [suggOf]

/-- C10: when a category's cap is 0 the guarded code paths make that
category inert: its normalized sub-score is 0, its marginal slope is 0, its
suggestion is `none`, and it contributes 0 to the composite GI, with no
division-by-zero failure. Stated for each of the three categories. -/
theorem c10_zero_cap_safe (total s1 s2 s3 : RawVal) (caps : Caps) (weightsIn : Option Weights) :
    (caps.S1 = 0 →
      (compute_scores total s1 s2 s3 (some caps) weightsIn).s_norms.S1 = 0 ∧
      slopeOf (w1Of (weightsOf weightsIn)) (rawScore (_nz s1) 4000 caps.S1) caps.S1 4000 = 0 ∧
      (compute_scores total s1 s2 s3 (some caps) weightsIn).suggestions.S1 = none ∧
      (compute_scores total s1 s2 s3 (some caps) weightsIn).gi
        = round_to 2 (clampGI
            (w2Of (weightsOf weightsIn) * normScore (rawScore (_nz s2) 7000 caps.S2) caps.S2
           + w3Of (weightsOf weightsIn) * normScore (rawScore (_nz s3) 8000 caps.S3) caps.S3))) ∧
    (caps.S2 = 0 →
      (compute_scores total s1 s2 s3 (some caps) weightsIn).s_norms.S2 = 0 ∧
      slopeOf (w2Of (weightsOf weightsIn)) (rawScore (_nz s2) 7000 caps.S2) caps.S2 7000 = 0 ∧
      (compute_scores total s1 s2 s3 (some caps) weightsIn).suggestions.S2 = none ∧
      (compute_scores total s1 s2 s3 (some caps) weightsIn).gi
        = round_to 2 (clampGI
            (w1Of (weightsOf weightsIn) * normScore (rawScore (_nz s1) 4000 caps.S1) caps.S1
           + w3Of (weightsOf weightsIn) * normScore (rawScore (_nz s3) 8000 caps.S3) caps.S3))) ∧
    (caps.S3 = 0 →
      (compute_scores total s1 s2 s3 (some caps) weightsIn).s_norms.S3 = 0 ∧
      slopeOf (w3Of (weightsOf weightsIn)) (rawScore (_nz s3) 8000 caps.S3) caps.S3 8000 = 0 ∧
      (compute_scores total s1 s2 s3 (some caps) weightsIn).suggestions.S3 = none ∧
      (compute_scores total s1 s2 s3 (some caps) weightsIn).gi
        = round_to 2 (clampGI
            (w1Of (weightsOf weightsIn) * normScore (rawScore (_nz s1) 4000 caps.S1) caps.S1
           + w2Of (weightsOf weightsIn) * normScore (rawScore (_nz s2) 7000 caps.S2) caps.S2))) := by
  refine ⟨fun hc => ?_, fun hc => ?_, fun hc => ?_⟩
  · have hslope : slopeOf (w1Of (weightsOf weightsIn)) (rawScore (_nz s1) 4000 caps.S1)
        caps.S1 4000 = 0 := by
      rw [hc]; exact slopeOf_zero_of_cap_zero _ _ _ (nz_nonneg s1) (by norm_num)
    have hnorm : normScore (rawScore (_nz s1) 4000 caps.S1) caps.S1 = 0 := by
      rw [hc]; exact normScore_cap_zero _
    refine ⟨?_, hslope, ?_, ?_⟩
    · show round_to 2 (normScore (rawScore (_nz s1) 4000 caps.S1) caps.S1) = 0
      rw [hnorm, round_to_zero]
    · show suggOf _ (slopeOf (w1Of (weightsOf weightsIn))
        (rawScore (_nz s1) 4000 caps.S1) caps.S1 4000) = none
      rw [hslope, suggOf_zero]
    · show round_to 2 (giExact (_nz s1) (_nz s2) (_nz s3) caps (weightsOf weightsIn)) = _
      unfold giExact
      rw [hnorm, mul_zero, zero_add]
  · have hslope : slopeOf (w2Of (weightsOf weightsIn)) (rawScore (_nz s2) 7000 caps.S2)
        caps.S2 7000 = 0 := by
      rw [hc]; exact slopeOf_zero_of_cap_zero _ _ _ (nz_nonneg s2) (by norm_num)
    have hnorm : normScore (rawScore (_nz s2) 7000 caps.S2) caps.S2 = 0 := by
      rw [hc]; exact normScore_cap_zero _
    refine ⟨?_, hslope, ?_, ?_⟩
    · show round_to 2 (normScore (rawScore (_nz s2) 7000 caps.S2) caps.S2) = 0
      rw [hnorm, round_to_zero]
    · show suggOf _ (slopeOf (w2Of (weightsOf weightsIn))
        (rawScore (_nz s2) 7000 caps.S2) caps.S2 7000) = none
      rw [hslope, suggOf_zero]
    · show round_to 2 (giExact (_nz s1) (_nz s2) (_nz s3) caps (weightsOf weightsIn)) = _
      unfold giExact
      rw [hnorm, mul_zero, add_zero]
  · have hslope : slopeOf (w3Of (weightsOf weightsIn)) (rawScore (_nz s3) 8000 caps.S3)
        caps.S3 8000 = 0 := by
      rw [hc]; exact slopeOf_zero_of_cap_zero _ _ _ (nz_nonneg s3) (by norm_num)
    have hnorm : normScore (rawScore (_nz s3) 8000 caps.S3) caps.S3 = 0 := by
      rw [hc]; exact normScore_cap_zero _
    refine ⟨?_, hslope, ?_, ?_⟩
    · show round_to 2 (normScore (rawScore (_nz s3) 8000 caps.S3) caps.S3) = 0
      rw [hnorm, round_to_zero]
    · show suggOf _ (slopeOf (w3Of (weightsOf weightsIn))
        (rawScore (_nz s3) 8000 caps.S3) caps.S3 8000) = none
      rw [hslope, suggOf_zero]
    · show round_to 2 (giExact (_nz s1) (_nz s2) (_nz s3) caps (weightsOf weightsIn)) = _
      unfold giExact
      rw [hnorm, mul_zero, add_zero]

theorem c10_zero_cap_witness :
    (compute_scores (.num 1000) (.num 100) (.num 100) (.num 100)
        (some ⟨0, 70, 80⟩) none).s_norms.S1 = 0 ∧
      slopeOf (w1Of (weightsOf none)) (rawScore (_nz (.num 100)) 4000 0) 0 4000 = 0 ∧
      (compute_scores (.num 1000) (.num 100) (.num 100) (.num 100)
        (some ⟨0, 70, 80⟩) none).suggestions.S1 = none ∧
      (compute_scores (.num 1000) (.num 100) (.num 100) (.num 100)
        (some ⟨0, 70, 80⟩) none).gi
        = round_to 2 (clampGI
            (w2Of (weightsOf none) * normScore (rawScore (_nz (.num 100)) 7000 70) 70
           + w3Of (weightsOf none) * normScore (rawScore (_nz (.num 100)) 8000 80) 80)) :=
  (c10_zero_cap_safe (.num 1000) (.num 100) (.num 100) (.num 100) ⟨0, 70, 80⟩ none).1 rfl

/-- Thresholds scanned for the next-target computation, ascending. -/
def thresholds7 : List ℚ := [0, 10, 20, 40, 60, 80, 100]

theorem next_threshold_spec (g : ℚ) :
    (_next_threshold g).target ∈ thresholds7 ∧
      (g < 100 → g < (_next_threshold g).target) ∧
      (∀ t ∈ thresholds7, g < t → (_next_threshold g).target ≤ t) ∧
      (g ≤ 100 → (_next_threshold g).delta
        = round_to 2 ((_next_threshold g).target - g)) ∧
      (100 ≤ g → _next_threshold g = ⟨100, 0⟩) ∧
      0 ≤ (_next_threshold g).delta := by
  unfold _next_threshold
  simp only [nextLoop]
  split_ifs with h1 h2 h3 h4 h5 h6 h7 <;> dsimp only <;>
    refine ⟨by norm_num [thresholds7, List.mem_cons, List.not_mem_nil],
      fun hlt => by linarith, ?_, ?_, ?_, ?_⟩ <;>
    first
      | (intro t ht hgt
         simp only [thresholds7, List.mem_cons, List.not_mem_nil, or_false] at ht
         rcases ht with rfl | rfl | rfl | rfl | rfl | rfl | rfl <;> linarith)
      | (intro h100; exfalso; linarith)
      | (intro h100; rfl)
      | (intro hle; rw [max_eq_left (by linarith)])
      | (intro hle
         have hg : g = 100 := by linarith
         rw [hg]
         norm_num [round_to_zero])
      | (exact round_to_nonneg (le_max_right _ _))
      | norm_num

theorem suggOf_some (delta w amt divisor cap : ℚ) (ha : 0 ≤ amt) (hd : 0 < divisor)
    (hdelta : 0 ≤ delta) (hraw : rawScore amt divisor cap < cap) (hw : 0 < w) :
    suggOf delta (slopeOf w (rawScore amt divisor cap) cap divisor)
      = some (round_to 0 (delta / (w * (100 / cap) * (100 / divisor)))) := by
  have hx : 0 ≤ 100 * (amt / divisor) := by positivity
  have hxlt : 100 * (amt / divisor) < cap := by
    unfold rawScore at hraw
    rcases min_lt_iff.mp hraw with h | h
    · exact h
    · exact absurd h (lt_irrefl cap)
  have hcap : 0 < cap := lt_of_le_of_lt hx hxlt
  have hm : slopeOf w (rawScore amt divisor cap) cap divisor
      = w * (100 / cap) * (100 / divisor) := by
    unfold slopeOf
    rw [if_pos hraw, if_neg (ne_of_gt hcap)]
  have hmpos : 0 < w * (100 / cap) * (100 / divisor) := by positivity
  unfold suggOf
  rw [hm, if_pos hmpos, max_eq_left (by positivity)]

theorem suggOf_none_cases (delta w cap divisor raw : ℚ)
    (hcase : cap ≤ raw ∨ w = 0) : suggOf delta (slopeOf w raw cap divisor) = none := by
  rcases hcase with h | h
  · rw [slopeOf, if_neg (not_lt.mpr h)]
    exact suggOf_zero delta
  · have hs : slopeOf w raw cap divisor = 0 := by
      unfold slopeOf
      rw [h]
      split_ifs <;> ring
    rw [hs]
    exact suggOf_zero delta

theorem w1Of_nonneg (w : Weights) : 0 ≤ w1Of w := by
  unfold w1Of wsOf nzq
  dsimp only
  split_ifs with h
  · positivity
  · have h1 : 0 ≤ max w.S1 0 + max w.S2 0 + max w.S3 0 := by positivity
    have h2 : 0 < max w.S1 0 + max w.S2 0 + max w.S3 0 := lt_of_le_of_ne h1 (Ne.symm h)
    positivity

theorem w2Of_nonneg (w : Weights) : 0 ≤ w2Of w := by
  unfold w2Of wsOf nzq
  dsimp only
  split_ifs with h
  · positivity
  · have h1 : 0 ≤ max w.S1 0 + max w.S2 0 + max w.S3 0 := by positivity
    have h2 : 0 < max w.S1 0 + max w.S2 0 + max w.S3 0 := lt_of_le_of_ne h1 (Ne.symm h)
    positivity

theorem w3Of_nonneg (w : Weights) : 0 ≤ w3Of w := by
  unfold w3Of wsOf nzq
  dsimp only
  split_ifs with h
  · positivity
  · have h1 : 0 ≤ max w.S1 0 + max w.S2 0 + max w.S3 0 := by positivity
    have h2 : 0 < max w.S1 0 + max w.S2 0 + max w.S3 0 := lt_of_le_of_ne h1 (Ne.symm h)
    positivity

theorem giExact_le_100 (a b c : ℚ) (caps : Caps) (w : Weights) :
    giExact a b c caps w ≤ 100 := by
  unfold giExact
  exact clampGI_le_100 _

/-- The configuration exhibiting the C8 gap: S1 weight zero, S1 uncapped. -/
def ex8 : ScoreResult :=
  compute_scores (.num 1000) (.num 100) (.num 100) (.num 100) none (some ⟨0, 1/2, 1/2⟩)

/-- C8 counterexample: with weights {S1:0, S2:0.5, S3:0.5} the S1 raw score
2.5 is strictly below its cap 40, yet the suggestion for S1 is None — the
claim's "every uncapped category receives gap/slope" fails for a zero-weight
category. -/
theorem c8_counterexample :
    rawScore (_nz (.num 100)) 4000 (capsOf none).S1 < (capsOf none).S1 ∧
      ex8.suggestions.S1 = none := by
  constructor
  · norm_num [rawScore, _nz, capsOf, defaultCaps, max_def, min_def]
  · have h : ex8.suggestions.S1
        = suggOf (_next_threshold (giExact (_nz (.num 100)) (_nz (.num 100)) (_nz (.num 100))
            (capsOf none) (weightsOf (some ⟨0, 1/2, 1/2⟩)))).delta
          (slopeOf (w1Of (weightsOf (some ⟨0, 1/2, 1/2⟩)))
            (rawScore (_nz (.num 100)) 4000 (capsOf none).S1) (capsOf none).S1 4000) := rfl
    rw [h]
    apply suggOf_none_cases
    right
    norm_num [w1Of, weightsOf, wsOf, nzq, max_def]

/-- C8 amended: the next target is the first threshold in [0,10,20,40,60,80,100]
strictly above the composite GI (with target 100 and gap 0 when GI reaches
100), the gap is the rounded distance to it, and each category's suggestion
is gap/slope rounded to a whole unit when the category is below its cap AND
its normalized weight is positive, while a capped or zero-weight category
gets None. -/
theorem c8_next_target_and_suggestions (total s1 s2 s3 : RawVal)
    (capsIn : Option Caps) (weightsIn : Option Weights) :
    (compute_scores total s1 s2 s3 capsIn weightsIn).next_target
        = _next_threshold (giExact (_nz s1) (_nz s2) (_nz s3)
            (capsOf capsIn) (weightsOf weightsIn)) ∧
    (giExact (_nz s1) (_nz s2) (_nz s3) (capsOf capsIn) (weightsOf weightsIn) < 100 →
      giExact (_nz s1) (_nz s2) (_nz s3) (capsOf capsIn) (weightsOf weightsIn)
          < (compute_scores total s1 s2 s3 capsIn weightsIn).next_target.target ∧
        (compute_scores total s1 s2 s3 capsIn weightsIn).next_target.target ∈ thresholds7 ∧
        (∀ t ∈ thresholds7,
          giExact (_nz s1) (_nz s2) (_nz s3) (capsOf capsIn) (weightsOf weightsIn) < t →
          (compute_scores total s1 s2 s3 capsIn weightsIn).next_target.target ≤ t)) ∧
    (100 ≤ giExact (_nz s1) (_nz s2) (_nz s3) (capsOf capsIn) (weightsOf weightsIn) →
      (compute_scores total s1 s2 s3 capsIn weightsIn).next_target = ⟨100, 0⟩) ∧
    (compute_scores total s1 s2 s3 capsIn weightsIn).next_target.delta
        = round_to 2 ((compute_scores total s1 s2 s3 capsIn weightsIn).next_target.target
            - giExact (_nz s1) (_nz s2) (_nz s3) (capsOf capsIn) (weightsOf weightsIn)) ∧
    ((rawScore (_nz s1) 4000 (capsOf capsIn).S1 < (capsOf capsIn).S1 ∧
        0 < w1Of (weightsOf weightsIn)) →
      (compute_scores total s1 s2 s3 capsIn weightsIn).suggestions.S1
        = some (round_to 0
            ((compute_scores total s1 s2 s3 capsIn weightsIn).next_target.delta
              / (w1Of (weightsOf weightsIn) * (100 / (capsOf capsIn).S1) * (100 / 4000))))) ∧
    (((capsOf capsIn).S1 ≤ rawScore (_nz s1) 4000 (capsOf capsIn).S1 ∨
        w1Of (weightsOf weightsIn) = 0) →
      (compute_scores total s1 s2 s3 capsIn weightsIn).suggestions.S1 = none) ∧
    ((rawScore (_nz s2) 7000 (capsOf capsIn).S2 < (capsOf capsIn).S2 ∧
        0 < w2Of (weightsOf weightsIn)) →
      (compute_scores total s1 s2 s3 capsIn weightsIn).suggestions.S2
        = some (round_to 0
            ((compute_scores total s1 s2 s3 capsIn weightsIn).next_target.delta
              / (w2Of (weightsOf weightsIn) * (100 / (capsOf capsIn).S2) * (100 / 7000))))) ∧
    (((capsOf capsIn).S2 ≤ rawScore (_nz s2) 7000 (capsOf capsIn).S2 ∨
        w2Of (weightsOf weightsIn) = 0) →
      (compute_scores total s1 s2 s3 capsIn weightsIn).suggestions.S2 = none) ∧
    ((rawScore (_nz s3) 8000 (capsOf capsIn).S3 < (capsOf capsIn).S3 ∧
        0 < w3Of (weightsOf weightsIn)) →
      (compute_scores total s1 s2 s3 capsIn weightsIn).suggestions.S3
        = some (round_to 0
            ((compute_scores total s1 s2 s3 capsIn weightsIn).next_target.delta
              / (w3Of (weightsOf weightsIn) * (100 / (capsOf capsIn).S3) * (100 / 8000))))) ∧
    (((capsOf capsIn).S3 ≤ rawScore (_nz s3) 8000 (capsOf capsIn).S3 ∨
        w3Of (weightsOf weightsIn) = 0) →
      (compute_scores total s1 s2 s3 capsIn weightsIn).suggestions.S3 = none) := by
  have hnt : (compute_scores total s1 s2 s3 capsIn weightsIn).next_target
      = _next_threshold (giExact (_nz s1) (_nz s2) (_nz s3)
          (capsOf capsIn) (weightsOf weightsIn)) := rfl
  have hspec := next_threshold_spec
    (giExact (_nz s1) (_nz s2) (_nz s3) (capsOf capsIn) (weightsOf weightsIn))
  have hg100 : giExact (_nz s1) (_nz s2) (_nz s3) (capsOf capsIn) (weightsOf weightsIn)
      ≤ 100 := giExact_le_100 _ _ _ _ _
  have hdelta0 : 0 ≤ (compute_scores total s1 s2 s3 capsIn weightsIn).next_target.delta := by
    rw [hnt]; exact hspec.2.2.2.2.2
  have hs1 : (compute_scores total s1 s2 s3 capsIn weightsIn).suggestions.S1
      = suggOf (compute_scores total s1 s2 s3 capsIn weightsIn).next_target.delta
          (slopeOf (w1Of (weightsOf weightsIn))
            (rawScore (_nz s1) 4000 (capsOf capsIn).S1) (capsOf capsIn).S1 4000) := rfl
  have hs2 : (compute_scores total s1 s2 s3 capsIn weightsIn).suggestions.S2
      = suggOf (compute_scores total s1 s2 s3 capsIn weightsIn).next_target.delta
          (slopeOf (w2Of (weightsOf weightsIn))
            (rawScore (_nz s2) 7000 (capsOf capsIn).S2) (capsOf capsIn).S2 7000) := rfl
  have hs3 : (compute_scores total s1 s2 s3 capsIn weightsIn).suggestions.S3
      = suggOf (compute_scores total s1 s2 s3 capsIn weightsIn).next_target.delta
          (slopeOf (w3Of (weightsOf weightsIn))
            (rawScore (_nz s3) 8000 (capsOf capsIn).S3) (capsOf capsIn).S3 8000) := rfl
  refine ⟨hnt, ?_, ?_, ?_, ?_, ?_, ?_, ?_, ?_, ?_⟩
  · intro hlt
    rw [hnt]
    exact ⟨hspec.2.1 hlt, hspec.1, hspec.2.2.1⟩
  · intro hge
    rw [hnt]
    exact hspec.2.2.2.2.1 hge
  · rw [hnt]
    exact hspec.2.2.2.1 hg100
  · rintro ⟨hraw, hw⟩
    rw [hs1]
    exact suggOf_some _ _ _ _ _ (nz_nonneg s1) (by norm_num) hdelta0 hraw hw
  · intro hcase
    rw [hs1]
    exact suggOf_none_cases _ _ _ _ _ hcase
  · rintro ⟨hraw, hw⟩
    rw [hs2]
    exact suggOf_some _ _ _ _ _ (nz_nonneg s2) (by norm_num) hdelta0 hraw hw
  · intro hcase
    rw [hs2]
    exact suggOf_none_cases _ _ _ _ _ hcase
  · rintro ⟨hraw, hw⟩
    rw [hs3]
    exact suggOf_some _ _ _ _ _ (nz_nonneg s3) (by norm_num) hdelta0 hraw hw
  · intro hcase
    rw [hs3]
    exact suggOf_none_cases _ _ _ _ _ hcase

theorem c8_suggestion_witness :
    (compute_scores (.num 5000) (.num 1000) (.num 2000) (.num 500) none none).suggestions.S1
      = some (round_to 0
          ((compute_scores (.num 5000) (.num 1000) (.num 2000) (.num 500)
              none none).next_target.delta
            / (w1Of (weightsOf none) * (100 / (capsOf none).S1) * (100 / 4000)))) :=
  (c8_next_target_and_suggestions (.num 5000) (.num 1000) (.num 2000) (.num 500)
      none none).2.2.2.2.1
    ⟨by norm_num [rawScore, _nz, capsOf, defaultCaps, max_def, min_def],
     by norm_num [w1Of, weightsOf, defaultWeights, wsOf, nzq, max_def]⟩

/-! Facts about the trailing-window view of the rolling loop. -/

theorem lastN_length_eq (n : ℕ) (l : List ℚ) :
    (lastN n l).length = l.length - (l.length - n) := by
  unfold lastN
  rw [List.length_drop]

theorem lastN_length_le (n : ℕ) (l : List ℚ) : (lastN n l).length ≤ n := by
  rw [lastN_length_eq]
  omega

theorem lastN_of_le {n : ℕ} {l : List ℚ} (h : l.length ≤ n) : lastN n l = l := by
  unfold lastN
  have h0 : l.length - n = 0 := by omega
  rw [h0, List.drop_zero]

theorem lastN_append (n : ℕ) (xs ys : List ℚ) :
    lastN n (lastN n xs ++ ys) = lastN n (xs ++ ys) := by
  rcases le_or_lt xs.length n with h | h
  · rw [lastN_of_le h]
  · unfold lastN
    simp only [List.length_append, List.length_drop]
    have hlen : xs.length - (xs.length - n) = n := by omega
    rw [hlen]
    have h1 : n + ys.length - n = ys.length := by omega
    rw [h1]
    have h2 : xs.length + ys.length - n = (xs.length - n) + ys.length := by omega
    have haux : xs.drop (xs.length - n) ++ ys = (xs ++ ys).drop (xs.length - n) := by
      rw [List.drop_append_eq_append_drop]
      have h3 : xs.length - n - xs.length = 0 := by omega
      rw [h3, List.drop_zero]
    rw [h2, ← List.drop_drop, haux]

theorem sum_tail_headD (l : List ℚ) (h : l ≠ []) : l.tail.sum = l.sum - l.headD 0 := by
  cases l with
  | nil => exact absurd rfl h
  | cons a xs =>
    simp only [List.tail_cons, List.sum_cons, List.headD_cons]
    ring

theorem rollStep_spec (win : List ℚ) (g : ℚ) (hwin : win.length ≤ 12) :
    rollStep win win.sum g = (lastN 12 (win ++ [g]), (lastN 12 (win ++ [g])).sum) := by
  unfold rollStep
  have hsum1 : win.sum + g = (win ++ [g]).sum := by simp
  rcases le_or_lt (win ++ [g]).length 12 with h | h
  · rw [if_neg (not_lt.mpr h), lastN_of_le h, hsum1]
  · have hlen : (win ++ [g]).length = 13 := by
      simp only [List.length_append, List.length_singleton] at h ⊢
      omega
    have hne : win ++ [g] ≠ [] := by
      intro hc
      rw [hc] at hlen
      simp at hlen
    have htail : lastN 12 (win ++ [g]) = (win ++ [g]).tail := by
      unfold lastN
      rw [hlen]
      simp
    rw [if_pos h, htail, sum_tail_headD _ hne, hsum1]

theorem rollAux_spec (series : List MonthRow) :
    ∀ (win : List ℚ), win.length ≤ 12 →
      (rollAux win win.sum series).length = series.length ∧
      ∀ (i : ℕ) (row : MonthRow), series.get? i = some row →
        (rollAux win win.sum series).get? i
          = some ⟨row.month,
              round_to 2 ((lastN 12 (win ++ (series.take (i+1)).map MonthRow.gi)).sum
                / ((lastN 12 (win ++ (series.take (i+1)).map MonthRow.gi)).length : ℚ)),
              (grade_from_gi ((lastN 12 (win ++ (series.take (i+1)).map MonthRow.gi)).sum
                / ((lastN 12 (win ++ (series.take (i+1)).map MonthRow.gi)).length : ℚ))).level⟩ := by
  induction series with
  | nil =>
    intro win hwin
    refine ⟨rfl, ?_⟩
    intro i row hrow
    simp at hrow
  | cons hd rest ih =>
    intro win hwin
    have hwin2 : (lastN 12 (win ++ [hd.gi])).length ≤ 12 := lastN_length_le _ _
    have hstep : rollAux win win.sum (hd :: rest)
        = ⟨hd.month,
           round_to 2 ((lastN 12 (win ++ [hd.gi])).sum
             / ((lastN 12 (win ++ [hd.gi])).length : ℚ)),
           (grade_from_gi ((lastN 12 (win ++ [hd.gi])).sum
             / ((lastN 12 (win ++ [hd.gi])).length : ℚ))).level⟩
          :: rollAux (lastN 12 (win ++ [hd.gi])) (lastN 12 (win ++ [hd.gi])).sum rest := by
      simp only [rollAux]
      rw [rollStep_spec win hd.gi hwin]
    constructor
    · rw [hstep]
      simp only [List.length_cons]
      rw [(ih _ hwin2).1]
    · intro i row hrow
      cases i with
      | zero =>
        rw [List.get?_cons_zero] at hrow
        injection hrow with hrow
        subst hrow
        rw [hstep, List.get?_cons_zero]
        simp only [List.take_succ_cons, List.take_zero, List.map_cons, List.map_nil]
      | succ i =>
        rw [List.get?_cons_succ] at hrow
        rw [hstep, List.get?_cons_succ]
        rw [(ih _ hwin2).2 i row hrow]
        have hw : lastN 12 (lastN 12 (win ++ [hd.gi]) ++ (rest.take (i+1)).map MonthRow.gi)
            = lastN 12 (win ++ (((hd :: rest).take (i+1+1)).map MonthRow.gi)) := by
          rw [lastN_append, List.append_assoc]
          simp only [List.take_succ_cons, List.map_cons, List.singleton_append]
        rw [hw]

/-- C6: rolling_12m yields exactly one point per input row, in order; the
i-th point's gi12m is the 2-decimal rounding of the arithmetic mean of the
GI values of the trailing window of the most recent min(i+1,12) rows (FIFO
eviction beyond 12), and its level12m is the tier this mean maps to. -/
theorem c6_rolling_12m (series : List MonthRow) :
    (rolling_12m series).length = series.length ∧
    ∀ (i : ℕ) (row : MonthRow), series.get? i = some row →
      (lastN 12 ((series.take (i+1)).map MonthRow.gi)).length = min (i+1) 12 ∧
      (rolling_12m series).get? i
        = some ⟨row.month,
            round_to 2 ((lastN 12 ((series.take (i+1)).map MonthRow.gi)).sum
              / ((lastN 12 ((series.take (i+1)).map MonthRow.gi)).length : ℚ)),
            (grade_from_gi ((lastN 12 ((series.take (i+1)).map MonthRow.gi)).sum
              / ((lastN 12 ((series.take (i+1)).map MonthRow.gi)).length : ℚ))).level⟩ := by
  have h := rollAux_spec series [] (by simp)
  constructor
  · exact h.1
  · intro i row hrow
    constructor
    · have hi : i < series.length := by
        rcases List.get?_eq_some.mp hrow with ⟨hlt, _⟩
        exact hlt
      have hlen : ((series.take (i+1)).map MonthRow.gi).length = i + 1 := by
        rw [List.length_map, List.length_take]
        omega
      rw [lastN_length_eq, hlen]
      omega
    · have h2 := h.2 i row hrow
      simpa using h2

/-- Series used to instantiate the rolling-window theorem. -/
def wser : List MonthRow :=
  [⟨"2025-01", 0, 0, 0, 0, 0, 10, "a"⟩, ⟨"2025-02", 0, 0, 0, 0, 0, 30, "b"⟩]

theorem c6_rolling_witness :
    wser.get? 1 = some ⟨"2025-02", 0, 0, 0, 0, 0, 30, "b"⟩ ∧
      (lastN 12 ((wser.take 2).map MonthRow.gi)).length = min 2 12 ∧
      (rolling_12m wser).get? 1
        = some ⟨"2025-02",
            round_to 2 ((lastN 12 ((wser.take 2).map MonthRow.gi)).sum
              / ((lastN 12 ((wser.take 2).map MonthRow.gi)).length : ℚ)),
            (grade_from_gi ((lastN 12 ((wser.take 2).map MonthRow.gi)).sum
              / ((lastN 12 ((wser.take 2).map MonthRow.gi)).length : ℚ))).level⟩ :=
  ⟨rfl, (c6_rolling_12m wser).2 1 ⟨"2025-02", 0, 0, 0, 0, 0, 30, "b"⟩ rfl⟩

/-! Aggregation facts. -/

/-- Contribution of one record to one month's bucket. -/
def deltaB (r : Receipt) (m : String) : Bucket :=
  if keepRec r && decide (monthKeyOf r = some m) then addCatB (catOf r) (_nz r.amount) zeroB
  else zeroB

/-- Sum of the sanitized amounts of the surviving records of one category
in one month. -/
def sumCat (recs : List Receipt) (cat m : String) : ℚ :=
  ((recs.filter (fun r => keepRec r && decide (monthKeyOf r = some m)
      && decide (catOf r = cat))).map (fun r => _nz r.amount)).sum

/-- All four category sums of one month. -/
def sumsB (recs : List Receipt) (m : String) : Bucket :=
  ⟨sumCat recs "S1" m, sumCat recs "S2" m, sumCat recs "S3" m, sumCat recs "OTHER" m⟩

theorem addB_zeroB (b : Bucket) : addB b zeroB = b := by
  cases b
  simp [addB, zeroB]

theorem addB_assoc (a b c : Bucket) : addB (addB a b) c = addB a (addB b c) := by
  cases a
  cases b
  cases c
  simp [addB]
  refine ⟨by ring, by ring, by ring, by ring⟩

theorem stepBucket_not_keep (st : BuckSt) (r : Receipt) (h : keepRec r = false) :
    stepBucket st r = st := by
  unfold stepBucket
  unfold keepRec at h
  cases hm : monthKeyOf r with
  | none => rfl
  | some key =>
    rw [hm] at h
    simp only [Option.isSome_some, Bool.true_and] at h
    rw [h]
    simp

theorem keepRec_cat (r : Receipt) (h : keepRec r = true) :
    catOf r = "S1" ∨ catOf r = "S2" ∨ catOf r = "S3" ∨ catOf r = "OTHER" := by
  unfold keepRec catAmtOk at h
  simp only [Bool.and_eq_true, decide_eq_true_eq] at h
  exact h.2.1

theorem deltaB_fields (r : Receipt) (m : String) :
    deltaB r m
      = ⟨if keepRec r && decide (monthKeyOf r = some m) && decide (catOf r = "S1")
           then _nz r.amount else 0,
         if keepRec r && decide (monthKeyOf r = some m) && decide (catOf r = "S2")
           then _nz r.amount else 0,
         if keepRec r && decide (monthKeyOf r = some m) && decide (catOf r = "S3")
           then _nz r.amount else 0,
         if keepRec r && decide (monthKeyOf r = some m) && decide (catOf r = "OTHER")
           then _nz r.amount else 0⟩ := by
  unfold deltaB
  by_cases h : (keepRec r && decide (monthKeyOf r = some m)) = true
  · rw [if_pos h]
    have hk : keepRec r = true := by
      have h' := h
      simp only [Bool.and_eq_true] at h'
      exact h'.1
    rcases keepRec_cat r hk with hc | hc | hc | hc <;>
      simp [addCatB, zeroB, h, hc]
  · rw [if_neg h]
    have hb : (keepRec r && decide (monthKeyOf r = some m)) = false :=
      Bool.eq_false_iff.mpr h
    simp [zeroB, hb]

theorem stepBucket_f (st : BuckSt) (r : Receipt) (m : String) :
    (stepBucket st r).f m = addB (st.f m) (deltaB r m) := by
  unfold stepBucket deltaB
  cases hm : monthKeyOf r with
  | none =>
    have hk : keepRec r = false := by simp [keepRec, hm]
    rw [hk]
    simp [addB_zeroB]
  | some key =>
    by_cases hok : catAmtOk r = true
    · have hk : keepRec r = true := by simp [keepRec, hm, hok]
      rw [hok]
      simp only [if_true]
      by_cases hmk : m = key
      · subst hmk
        rw [if_pos rfl]
        have hcond : (keepRec r && decide (some m = some m)) = true := by
          simp [hk]
        rw [hcond]
        simp only [if_true]
        cases hb : st.f m
        rcases keepRec_cat r hk with hc | hc | hc | hc <;> simp [addCatB, zeroB, addB, hc]
      · rw [if_neg (fun hc => hmk hc)]
        have hcond : (keepRec r && decide (some key = some m)) = false := by
          have hne : ¬(some key = some m) := by
            intro hc
            exact hmk (Option.some.inj hc).symm
          simp [hne]
        rw [hcond]
        simp [addB_zeroB]
    · have hokf : catAmtOk r = false := Bool.eq_false_iff.mpr hok
      have hk : keepRec r = false := by simp [keepRec, hokf]
      rw [hokf, hk]
      simp [addB_zeroB]

theorem zeroB_addB (b : Bucket) : addB zeroB b = b := by
  cases b
  simp [addB, zeroB]

theorem sumCat_cons (r : Receipt) (rs : List Receipt) (cat m : String) :
    sumCat (r :: rs) cat m
      = (if keepRec r && decide (monthKeyOf r = some m) && decide (catOf r = cat)
          then _nz r.amount else 0) + sumCat rs cat m := by
  unfold sumCat
  rw [List.filter_cons]
  split_ifs with h
  · simp
  · simp

theorem sumsB_cons (r : Receipt) (rs : List Receipt) (m : String) :
    sumsB (r :: rs) m = addB (deltaB r m) (sumsB rs m) := by
  unfold sumsB
  rw [deltaB_fields]
  simp only [sumCat_cons, addB]

theorem foldl_stepBucket_f (recs : List Receipt) :
    ∀ (st : BuckSt) (m : String),
      (recs.foldl stepBucket st).f m = addB (st.f m) (sumsB recs m) := by
  induction recs with
  | nil =>
    intro st m
    show st.f m = addB (st.f m) (sumsB [] m)
    rw [show sumsB [] m = zeroB from rfl, addB_zeroB]
  | cons r rs ih =>
    intro st m
    rw [List.foldl_cons, ih, stepBucket_f, sumsB_cons, addB_assoc]

/-- The spec's Example 3 records. -/
def ex3 : List Receipt :=
  [⟨"2025-08-01", "S1", .num 380⟩, ⟨"2025-08-08", "S2", .num 2200⟩,
   ⟨"2025-08-15", "S3", .num 900⟩, ⟨"2025-08-20", "OTHER", .num 600⟩]

/-- C7: aggregate_monthly silently drops every record with an unparseable
date, unrecognized uppercased category or non-positive sanitized amount;
surviving records are bucketed by calendar month with per-category sums;
the output is sorted ascending by month; and the four Example 3 records
produce exactly one bucket 2025-08 with s1=380, s2=2200, s3=900, other=600,
total=4080. -/
theorem c7_aggregate_monthly (recs : List Receipt) :
    (∀ (l1 l2 : List Receipt) (r : Receipt), keepRec r = false →
        aggregate_monthly (l1 ++ r :: l2) = aggregate_monthly (l1 ++ l2)) ∧
    List.Pairwise (fun x y : MonthRow => x.month ≤ y.month) (aggregate_monthly recs) ∧
    (∀ row ∈ aggregate_monthly recs,
        row.s1 = round_to 2 (sumCat recs "S1" row.month) ∧
        row.s2 = round_to 2 (sumCat recs "S2" row.month) ∧
        row.s3 = round_to 2 (sumCat recs "S3" row.month) ∧
        row.other = round_to 2 (sumCat recs "OTHER" row.month) ∧
        row.total = round_to 2 (sumCat recs "S1" row.month + sumCat recs "S2" row.month
          + sumCat recs "S3" row.month + sumCat recs "OTHER" row.month)) ∧
    (aggregate_monthly ex3).length = 1 ∧
    ((aggregate_monthly ex3).get? 0).map MonthRow.month = some "2025-08" ∧
    ((aggregate_monthly ex3).get? 0).map MonthRow.s1 = some 380 ∧
    ((aggregate_monthly ex3).get? 0).map MonthRow.s2 = some 2200 ∧
    ((aggregate_monthly ex3).get? 0).map MonthRow.s3 = some 900 ∧
    ((aggregate_monthly ex3).get? 0).map MonthRow.other = some 600 ∧
    ((aggregate_monthly ex3).get? 0).map MonthRow.total = some 4080 := by
  haveI hTot : IsTotal MonthRow (fun x y : MonthRow => x.month ≤ y.month) :=
    ⟨fun a b => le_total a.month b.month⟩
  haveI hTrans : IsTrans MonthRow (fun x y : MonthRow => x.month ≤ y.month) :=
    ⟨fun a b c hab hbc => le_trans hab hbc⟩
  have hmem : ∀ (rs : List Receipt) (row : MonthRow), row ∈ aggregate_monthly rs →
      ∃ m, row = mkRow m (addB zeroB (sumsB rs m)) := by
    intro rs row hrow
    unfold aggregate_monthly at hrow
    rw [List.Perm.mem_iff (List.perm_insertionSort _ _)] at hrow
    rcases List.mem_map.mp hrow with ⟨m, _hmk, hrw⟩
    refine ⟨m, ?_⟩
    rw [← hrw, foldl_stepBucket_f]
  refine ⟨?_, ?_, ?_, ?_⟩
  · intro l1 l2 r h
    unfold aggregate_monthly
    rw [List.foldl_append, List.foldl_cons, stepBucket_not_keep _ _ h, ← List.foldl_append]
  · unfold aggregate_monthly
    exact List.sorted_insertionSort _ _
  · intro row hrow
    rcases hmem recs row hrow with ⟨m, rfl⟩
    rw [zeroB_addB]
    unfold mkRow sumsB
    refine ⟨rfl, rfl, rfl, rfl, rfl⟩
  · have hkeys : (ex3.foldl stepBucket ⟨[], fun _ => zeroB⟩).keys = ["2025-08"] := by decide
    have hagg : aggregate_monthly ex3
        = [mkRow "2025-08" ((ex3.foldl stepBucket ⟨[], fun _ => zeroB⟩).f "2025-08")] := by
      show List.insertionSort _ (((ex3.foldl stepBucket ⟨[], fun _ => zeroB⟩).keys).map
        (fun m => mkRow m ((ex3.foldl stepBucket ⟨[], fun _ => zeroB⟩).f m))) = _
      rw [hkeys]
      rfl
    have hf : (ex3.foldl stepBucket ⟨[], fun _ => zeroB⟩).f "2025-08"
        = sumsB ex3 "2025-08" := by
      rw [foldl_stepBucket_f]
      exact zeroB_addB _
    have hfil1 : ex3.filter (fun r => keepRec r && decide (monthKeyOf r = some "2025-08")
        && decide (catOf r = "S1")) = [⟨"2025-08-01", "S1", .num 380⟩] := by decide
    have hfil2 : ex3.filter (fun r => keepRec r && decide (monthKeyOf r = some "2025-08")
        && decide (catOf r = "S2")) = [⟨"2025-08-08", "S2", .num 2200⟩] := by decide
    have hfil3 : ex3.filter (fun r => keepRec r && decide (monthKeyOf r = some "2025-08")
        && decide (catOf r = "S3")) = [⟨"2025-08-15", "S3", .num 900⟩] := by decide
    have hfil4 : ex3.filter (fun r => keepRec r && decide (monthKeyOf r = some "2025-08")
        && decide (catOf r = "OTHER")) = [⟨"2025-08-20", "OTHER", .num 600⟩] := by decide
    have hS1 : sumCat ex3 "S1" "2025-08" = 380 := by
      unfold sumCat
      rw [hfil1]
      simp only [List.map_cons, List.map_nil, List.sum_cons, List.sum_nil, _nz]
      norm_num [max_def]
    have hS2 : sumCat ex3 "S2" "2025-08" = 2200 := by
      unfold sumCat
      rw [hfil2]
      simp only [List.map_cons, List.map_nil, List.sum_cons, List.sum_nil, _nz]
      norm_num [max_def]
    have hS3 : sumCat ex3 "S3" "2025-08" = 900 := by
      unfold sumCat
      rw [hfil3]
      simp only [List.map_cons, List.map_nil, List.sum_cons, List.sum_nil, _nz]
      norm_num [max_def]
    have hS4 : sumCat ex3 "OTHER" "2025-08" = 600 := by
      unfold sumCat
      rw [hfil4]
      simp only [List.map_cons, List.map_nil, List.sum_cons, List.sum_nil, _nz]
      norm_num [max_def]
    rw [hagg, hf]
    unfold mkRow sumsB
    dsimp only
    rw [hS1, hS2, hS3, hS4]
    refine ⟨rfl, rfl, ?_, ?_, ?_, ?_, ?_⟩ <;> norm_num [round_to, roundHE]

/-- A record whose date parses under no accepted form. -/
def badRec : Receipt := ⟨"notadate", "S1", .num 5⟩

theorem c7_aggregate_witness :
    keepRec badRec = false ∧
      aggregate_monthly (badRec :: ex3) = aggregate_monthly ex3 := by
  refine ⟨by decide, ?_⟩
  have h := (c7_aggregate_monthly ex3).1 [] ex3 badRec (by decide)
  simpa using h

/-! Backsolve planner facts. -/

theorem nz_num {q : ℚ} (h : 0 ≤ q) : _nz (.num q) = q := by
  unfold _nz
  exact max_eq_left h

theorem nz_idem (v : RawVal) : _nz (.num (_nz v)) = _nz v := nz_num (nz_nonneg v)

theorem suggOf_some_imp {delta m v : ℚ} (h : suggOf delta m = some v) : 0 < m := by
  by_cases hc : 0 < m
  · exact hc
  · exfalso
    unfold suggOf at h
    rw [if_neg hc] at h
    cases h

theorem suggOf_none_imp {delta m : ℚ} (h : suggOf delta m = none) : ¬ 0 < m := by
  intro hc
  unfold suggOf at h
  rw [if_pos hc] at h
  cases h

theorem slopeOf_pos_imp {w raw cap divisor : ℚ} (h : 0 < slopeOf w raw cap divisor) :
    raw < cap := by
  by_cases hc : raw < cap
  · exact hc
  · exfalso
    unfold slopeOf at h
    rw [if_neg hc] at h
    exact lt_irrefl 0 h

theorem slope_not_pos_imp {w raw cap divisor : ℚ} (hw : 0 < w) (hcap : 0 < cap)
    (hdiv : 0 < divisor) (h : ¬ 0 < slopeOf w raw cap divisor) : ¬ raw < cap := by
  intro hr
  apply h
  unfold slopeOf
  rw [if_pos hr, if_neg (ne_of_gt hcap)]
  positivity

/-- Suggestion entry selected by a category. -/
def getCat : Cat → Triple (Option ℚ) → Option ℚ
  | .S1, t => t.S1
  | .S2, t => t.S2
  | .S3, t => t.S3

theorem pickMin_mem (l : List (Cat × ℚ)) :
    ∀ (acc : Option (Cat × ℚ)) (p : Cat × ℚ), pickMin l acc = some p →
      p ∈ l ∨ acc = some p := by
  induction l with
  | nil =>
    intro acc p h
    exact Or.inr h
  | cons q qs ih =>
    intro acc p h
    cases acc with
    | none =>
      rcases ih (some q) p h with hmem | hacc
      · exact Or.inl (List.mem_cons_of_mem _ hmem)
      · injection hacc with hacc
        exact Or.inl (hacc ▸ List.mem_cons_self _ _)
    | some q0 =>
      rcases ih (some (if q.2 < q0.2 then q else q0)) p h with hmem | hacc
      · exact Or.inl (List.mem_cons_of_mem _ hmem)
      · injection hacc with hacc
        by_cases hc : q.2 < q0.2
        · rw [if_pos hc] at hacc
          exact Or.inl (hacc ▸ List.mem_cons_self _ _)
        · rw [if_neg hc] at hacc
          exact Or.inr (by rw [hacc])

theorem pickMin_none (l : List (Cat × ℚ)) :
    ∀ (acc : Option (Cat × ℚ)), pickMin l acc = none → l = [] ∧ acc = none := by
  induction l with
  | nil =>
    intro acc h
    exact ⟨rfl, h⟩
  | cons q qs ih =>
    intro acc h
    cases acc with
    | none =>
      rcases ih (some q) h with ⟨_, hacc⟩
      cases hacc
    | some q0 =>
      rcases ih (some (if q.2 < q0.2 then q else q0)) h with ⟨_, hacc⟩
      cases hacc

theorem entriesOf_mem {t : Triple (Option ℚ)} {p : Cat × ℚ} (h : p ∈ entriesOf t) :
    getCat p.1 t = some p.2 := by
  unfold entriesOf at h
  rcases List.mem_filterMap.mp h with ⟨q, hq, hmap⟩
  simp only [List.mem_cons, List.not_mem_nil, or_false] at hq
  rcases hq with rfl | rfl | rfl
  · cases ht : t.S1 with
    | none => rw [ht] at hmap; cases hmap
    | some v =>
      rw [ht] at hmap
      simp only [Option.map_some'] at hmap
      injection hmap with hmap
      rw [← hmap]
      exact ht
  · cases ht : t.S2 with
    | none => rw [ht] at hmap; cases hmap
    | some v =>
      rw [ht] at hmap
      simp only [Option.map_some'] at hmap
      injection hmap with hmap
      rw [← hmap]
      exact ht
  · cases ht : t.S3 with
    | none => rw [ht] at hmap; cases hmap
    | some v =>
      rw [ht] at hmap
      simp only [Option.map_some'] at hmap
      injection hmap with hmap
      rw [← hmap]
      exact ht

theorem pickCand_some {t : Triple (Option ℚ)} {p : Cat × ℚ} (h : pickCand t = some p) :
    getCat p.1 t = some p.2 := by
  rcases pickMin_mem (entriesOf t) none p h with hmem | hacc
  · exact entriesOf_mem hmem
  · cases hacc

theorem pickCand_none {t : Triple (Option ℚ)} (h : pickCand t = none) :
    t.S1 = none ∧ t.S2 = none ∧ t.S3 = none := by
  have hnil : entriesOf t = [] := (pickMin_none (entriesOf t) none h).1
  unfold entriesOf at hnil
  refine ⟨?_, ?_, ?_⟩
  · have := List.filterMap_eq_nil_iff.mp hnil (Cat.S1, t.S1) (by simp)
    cases ht : t.S1 with
    | none => rfl
    | some v => rw [ht] at this; cases this
  · have := List.filterMap_eq_nil_iff.mp hnil (Cat.S2, t.S2) (by simp)
    cases ht : t.S2 with
    | none => rfl
    | some v => rw [ht] at this; cases this
  · have := List.filterMap_eq_nil_iff.mp hnil (Cat.S3, t.S3) (by simp)
    cases ht : t.S3 with
    | none => rfl
    | some v => rw [ht] at this; cases this

theorem backLoop_succ (caps : Option Caps) (w : Option Weights) (target : ℚ)
    (fuel : ℕ) (st : BState) :
    backLoop caps w target (fuel + 1) st
      = if st.gi < target then
          (match pickCand (suggAt caps w st) with
           | none => (st, 0)
           | some kv =>
             ((backLoop caps w target fuel (bstep caps w kv.1 st)).1,
              (backLoop caps w target fuel (bstep caps w kv.1 st)).2 + 1))
        else (st, 0) := rfl

theorem backLoop_count (caps : Option Caps) (w : Option Weights) (target : ℚ) :
    ∀ (fuel : ℕ) (st : BState), (backLoop caps w target fuel st).2 ≤ fuel := by
  intro fuel
  induction fuel with
  | zero => intro st; exact Nat.le_refl 0
  | succ fuel ih =>
    intro st
    rw [backLoop_succ]
    split_ifs with h
    · cases hcand : pickCand (suggAt caps w st) with
      | none => exact Nat.zero_le _
      | some kv =>
        show (backLoop caps w target fuel (bstep caps w kv.1 st)).2 + 1 ≤ fuel + 1
        have := ih (bstep caps w kv.1 st)
        omega
    · exact Nat.zero_le _

theorem backLoop_allcapped (caps : Option Caps) (w : Option Weights) (target : ℚ)
    (fuel : ℕ) (st : BState) (h : suggAt caps w st = ⟨none, none, none⟩) :
    (backLoop caps w target fuel st).1 = st := by
  cases fuel with
  | zero => rfl
  | succ fuel =>
    rw [backLoop_succ]
    have hc : pickCand (suggAt caps w st) = none := by rw [h]; rfl
    split_ifs with hlt
    · rw [hc]
    · rfl

theorem w1_default : w1Of defaultWeights = 7/20 := by
  norm_num [w1Of, wsOf, nzq, defaultWeights, max_def]

theorem w2_default : w2Of defaultWeights = 9/20 := by
  norm_num [w2Of, wsOf, nzq, defaultWeights, max_def]

theorem w3_default : w3Of defaultWeights = 1/5 := by
  norm_num [w3Of, wsOf, nzq, defaultWeights, max_def]

/-- GI reported by `compute` at a planner state under the default configuration. -/
def giAt (st : BState) : ℚ :=
  (compute_scores (.num st.total) (.num st.s1) (.num st.s2) (.num st.s3) none none).gi

theorem giAt_eq (st : BState) (h1 : 0 ≤ st.s1) (h2 : 0 ≤ st.s2) (h3 : 0 ≤ st.s3) :
    giAt st = round_to 2 (giExact st.s1 st.s2 st.s3 defaultCaps defaultWeights) := by
  show round_to 2 (giExact (_nz (.num st.s1)) (_nz (.num st.s2)) (_nz (.num st.s3))
      (capsOf none) (weightsOf none)) = _
  rw [nz_num h1, nz_num h2, nz_num h3]
  rfl

theorem giAt_capped (st : BState) (h1 : 0 ≤ st.s1) (h2 : 0 ≤ st.s2) (h3 : 0 ≤ st.s3)
    (hr1 : ¬ rawScore st.s1 4000 40 < 40) (hr2 : ¬ rawScore st.s2 7000 70 < 70)
    (hr3 : ¬ rawScore st.s3 8000 80 < 80) : giAt st = 100 := by
  rw [giAt_eq st h1 h2 h3]
  have e1 : rawScore st.s1 4000 40 = 40 := le_antisymm (min_le_right _ _) (not_lt.mp hr1)
  have e2 : rawScore st.s2 7000 70 = 70 := le_antisymm (min_le_right _ _) (not_lt.mp hr2)
  have e3 : rawScore st.s3 8000 80 = 80 := le_antisymm (min_le_right _ _) (not_lt.mp hr3)
  unfold giExact
  rw [show defaultCaps = ⟨40, 70, 80⟩ from rfl]
  dsimp only
  rw [e1, e2, e3, w1_default, w2_default, w3_default]
  norm_num [normScore, clampGI, max_def, min_def, round_to, roundHE]

theorem suggAt_S1 (st : BState) (h1 : 0 ≤ st.s1) (h2 : 0 ≤ st.s2) (h3 : 0 ≤ st.s3) :
    (suggAt none none st).S1
      = suggOf (_next_threshold (giExact st.s1 st.s2 st.s3 defaultCaps defaultWeights)).delta
          (slopeOf (w1Of defaultWeights) (rawScore st.s1 4000 40) 40 4000) := by
  show suggOf (_next_threshold (giExact (_nz (.num st.s1)) (_nz (.num st.s2))
        (_nz (.num st.s3)) (capsOf none) (weightsOf none))).delta
      (slopeOf (w1Of (weightsOf none)) (rawScore (_nz (.num st.s1)) 4000 (capsOf none).S1)
        (capsOf none).S1 4000) = _
  rw [nz_num h1, nz_num h2, nz_num h3]
  rfl

theorem suggAt_S2 (st : BState) (h1 : 0 ≤ st.s1) (h2 : 0 ≤ st.s2) (h3 : 0 ≤ st.s3) :
    (suggAt none none st).S2
      = suggOf (_next_threshold (giExact st.s1 st.s2 st.s3 defaultCaps defaultWeights)).delta
          (slopeOf (w2Of defaultWeights) (rawScore st.s2 7000 70) 70 7000) := by
  show suggOf (_next_threshold (giExact (_nz (.num st.s1)) (_nz (.num st.s2))
        (_nz (.num st.s3)) (capsOf none) (weightsOf none))).delta
      (slopeOf (w2Of (weightsOf none)) (rawScore (_nz (.num st.s2)) 7000 (capsOf none).S2)
        (capsOf none).S2 7000) = _
  rw [nz_num h1, nz_num h2, nz_num h3]
  rfl

theorem suggAt_S3 (st : BState) (h1 : 0 ≤ st.s1) (h2 : 0 ≤ st.s2) (h3 : 0 ≤ st.s3) :
    (suggAt none none st).S3
      = suggOf (_next_threshold (giExact st.s1 st.s2 st.s3 defaultCaps defaultWeights)).delta
          (slopeOf (w3Of defaultWeights) (rawScore st.s3 8000 80) 80 8000) := by
  show suggOf (_next_threshold (giExact (_nz (.num st.s1)) (_nz (.num st.s2))
        (_nz (.num st.s3)) (capsOf none) (weightsOf none))).delta
      (slopeOf (w3Of (weightsOf none)) (rawScore (_nz (.num st.s3)) 8000 (capsOf none).S3)
        (capsOf none).S3 8000) = _
  rw [nz_num h1, nz_num h2, nz_num h3]
  rfl

/-- Number of 100-unit steps left before a category's spend reaches the
amount at which its raw score caps. -/
def stepsFor (capAmt s : ℚ) : ℕ := (⌈(capAmt - s) / 100⌉).toNat

/-- Total remaining steps before all three default caps are reached. -/
def bmeasure (st : BState) : ℕ :=
  stepsFor 1600 st.s1 + stepsFor 4900 st.s2 + stepsFor 6400 st.s3

theorem stepsFor_pos {capAmt s : ℚ} (h : s < capAmt) : 1 ≤ stepsFor capAmt s := by
  unfold stepsFor
  have h1 : (0:ℚ) < (capAmt - s) / 100 := div_pos (by linarith) (by norm_num)
  have h2 : 0 < ⌈(capAmt - s) / 100⌉ := Int.ceil_pos.mpr h1
  omega

theorem stepsFor_step {capAmt s : ℚ} (h : s < capAmt) :
    stepsFor capAmt (s + 100) = stepsFor capAmt s - 1 := by
  unfold stepsFor
  have harg : (capAmt - (s + 100)) / 100 = (capAmt - s) / 100 - 1 := by ring
  rw [harg, Int.ceil_sub_one]
  have h1 : (0:ℚ) < (capAmt - s) / 100 := div_pos (by linarith) (by norm_num)
  have h2 : 0 < ⌈(capAmt - s) / 100⌉ := Int.ceil_pos.mpr h1
  omega

theorem stepsFor_le {capAmt s : ℚ} (k : ℕ) (h0 : 0 ≤ s) (h : capAmt ≤ 100 * k) :
    stepsFor capAmt s ≤ k := by
  unfold stepsFor
  have h1 : (capAmt - s) / 100 ≤ (k : ℚ) := by
    rw [div_le_iff₀ (by norm_num : (0:ℚ) < 100)]
    linarith
  have h2 : ⌈(capAmt - s) / 100⌉ ≤ (k : ℤ) := by
    rw [Int.ceil_le]
    push_cast
    exact h1
  omega

theorem raw1_lt_iff {s : ℚ} : rawScore s 4000 40 < 40 ↔ s < 1600 := by
  unfold rawScore
  constructor
  · intro h
    rcases min_lt_iff.mp h with h | h
    · linarith
    · exact absurd h (lt_irrefl _)
  · intro h
    exact lt_of_le_of_lt (min_le_left _ _) (by linarith)

theorem raw2_lt_iff {s : ℚ} : rawScore s 7000 70 < 70 ↔ s < 4900 := by
  unfold rawScore
  constructor
  · intro h
    rcases min_lt_iff.mp h with h | h
    · linarith
    · exact absurd h (lt_irrefl _)
  · intro h
    exact lt_of_le_of_lt (min_le_left _ _) (by linarith)

theorem raw3_lt_iff {s : ℚ} : rawScore s 8000 80 < 80 ↔ s < 6400 := by
  unfold rawScore
  constructor
  · intro h
    rcases min_lt_iff.mp h with h | h
    · linarith
    · exact absurd h (lt_irrefl _)
  · intro h
    exact lt_of_le_of_lt (min_le_left _ _) (by linarith)

theorem backLoop_ge :
    ∀ (fuel : ℕ) (st : BState), 0 ≤ st.s1 → 0 ≤ st.s2 → 0 ≤ st.s3 →
      st.gi = giAt st → bmeasure st < fuel →
      40 ≤ ((backLoop none none 40 fuel st).1).gi := by
  intro fuel
  induction fuel with
  | zero =>
    intro st _ _ _ _ hm
    exact absurd hm (Nat.not_lt_zero _)
  | succ fuel ih =>
    intro st h1 h2 h3 hgi hm
    rw [backLoop_succ]
    by_cases hlt : st.gi < 40
    · rw [if_pos hlt]
      cases hcand : pickCand (suggAt none none st) with
      | none =>
        exfalso
        rcases pickCand_none hcand with ⟨hn1, hn2, hn3⟩
        rw [suggAt_S1 st h1 h2 h3] at hn1
        rw [suggAt_S2 st h1 h2 h3] at hn2
        rw [suggAt_S3 st h1 h2 h3] at hn3
        have hr1 : ¬ rawScore st.s1 4000 40 < 40 :=
          slope_not_pos_imp (by rw [w1_default]; norm_num) (by norm_num) (by norm_num)
            (suggOf_none_imp hn1)
        have hr2 : ¬ rawScore st.s2 7000 70 < 70 :=
          slope_not_pos_imp (by rw [w2_default]; norm_num) (by norm_num) (by norm_num)
            (suggOf_none_imp hn2)
        have hr3 : ¬ rawScore st.s3 8000 80 < 80 :=
          slope_not_pos_imp (by rw [w3_default]; norm_num) (by norm_num) (by norm_num)
            (suggOf_none_imp hn3)
        have h100 := giAt_capped st h1 h2 h3 hr1 hr2 hr3
        rw [hgi, h100] at hlt
        norm_num at hlt
      | some kv =>
        show 40 ≤ ((backLoop none none 40 fuel (bstep none none kv.1 st)).1).gi
        rcases kv with ⟨k, v⟩
        have hget : getCat k (suggAt none none st) = some v := pickCand_some hcand
        cases k with
        | S1 =>
          have hs : (suggAt none none st).S1 = some v := hget
          rw [suggAt_S1 st h1 h2 h3] at hs
          have hraw : rawScore st.s1 4000 40 < 40 := slopeOf_pos_imp (suggOf_some_imp hs)
          have hslt : st.s1 < 1600 := raw1_lt_iff.mp hraw
          apply ih (bstep none none Cat.S1 st)
          · show 0 ≤ st.s1 + 100
            linarith
          · exact h2
          · exact h3
          · rfl
          · have hme : bmeasure (bstep none none Cat.S1 st)
                = stepsFor 1600 (st.s1 + 100) + stepsFor 4900 st.s2 + stepsFor 6400 st.s3 := rfl
            rw [hme, stepsFor_step hslt]
            have hp := stepsFor_pos hslt
            unfold bmeasure at hm
            omega
        | S2 =>
          have hs : (suggAt none none st).S2 = some v := hget
          rw [suggAt_S2 st h1 h2 h3] at hs
          have hraw : rawScore st.s2 7000 70 < 70 := slopeOf_pos_imp (suggOf_some_imp hs)
          have hslt : st.s2 < 4900 := raw2_lt_iff.mp hraw
          apply ih (bstep none none Cat.S2 st)
          · exact h1
          · show 0 ≤ st.s2 + 100
            linarith
          · exact h3
          · rfl
          · have hme : bmeasure (bstep none none Cat.S2 st)
                = stepsFor 1600 st.s1 + stepsFor 4900 (st.s2 + 100) + stepsFor 6400 st.s3 := rfl
            rw [hme, stepsFor_step hslt]
            have hp := stepsFor_pos hslt
            unfold bmeasure at hm
            omega
        | S3 =>
          have hs : (suggAt none none st).S3 = some v := hget
          rw [suggAt_S3 st h1 h2 h3] at hs
          have hraw : rawScore st.s3 8000 80 < 80 := slopeOf_pos_imp (suggOf_some_imp hs)
          have hslt : st.s3 < 6400 := raw3_lt_iff.mp hraw
          apply ih (bstep none none Cat.S3 st)
          · exact h1
          · exact h2
          · show 0 ≤ st.s3 + 100
            linarith
          · rfl
          · have hme : bmeasure (bstep none none Cat.S3 st)
                = stepsFor 1600 st.s1 + stepsFor 4900 st.s2 + stepsFor 6400 (st.s3 + 100) := rfl
            rw [hme, stepsFor_step hslt]
            have hp := stepsFor_pos hslt
            unfold bmeasure at hm
            omega
    · rw [if_neg hlt]
      exact not_lt.mp hlt

theorem backsolve_eq (caps : Option Caps) (w : Option Weights) (target : ℚ)
    (total s1 s2 s3 : RawVal) :
    backsolve caps w target total s1 s2 s3
      = if target ≤ (compute_scores total s1 s2 s3 caps w).gi then
          (⟨(compute_scores total s1 s2 s3 caps w).inputs.total,
            (compute_scores total s1 s2 s3 caps w).inputs.s1,
            (compute_scores total s1 s2 s3 caps w).inputs.s2,
            (compute_scores total s1 s2 s3 caps w).inputs.s3,
            (compute_scores total s1 s2 s3 caps w).gi⟩, 0)
        else
          backLoop caps w target 2000
            ⟨(compute_scores total s1 s2 s3 caps w).inputs.total,
             (compute_scores total s1 s2 s3 caps w).inputs.s1,
             (compute_scores total s1 s2 s3 caps w).inputs.s2,
             (compute_scores total s1 s2 s3 caps w).inputs.s3,
             (compute_scores total s1 s2 s3 caps w).gi⟩ := rfl

/-- C9: the backsolve planner's loop performs at most 2000 stepping
iterations; it exits immediately when no category has a non-zero slope (all
suggestions None); and started below GI 40 with target 40 under the default
configuration, the categories are not all pre-capped and the planner
terminates with an achieved GI of at least 40. -/
theorem c9_backsolve_planner (caps : Option Caps) (w : Option Weights) (target : ℚ)
    (fuel : ℕ) (st : BState) (total s1 s2 s3 : RawVal) :
    (backsolve caps w target total s1 s2 s3).2 ≤ 2000 ∧
    (suggAt caps w st = ⟨none, none, none⟩ → (backLoop caps w target fuel st).1 = st) ∧
    ((compute_scores total s1 s2 s3 none none).gi < 40 →
      (rawScore (_nz s1) 4000 40 < 40 ∨ rawScore (_nz s2) 7000 70 < 70
        ∨ rawScore (_nz s3) 8000 80 < 80) ∧
      40 ≤ ((backsolve none none 40 total s1 s2 s3).1).gi) := by
  refine ⟨?_, ?_, ?_⟩
  · rw [backsolve_eq]
    split_ifs with h
    · exact Nat.zero_le _
    · exact backLoop_count caps w target 2000 _
  · intro h
    exact backLoop_allcapped caps w target fuel st h
  · intro hgi
    constructor
    · by_contra hcon
      push_neg at hcon
      obtain ⟨hc1, hc2, hc3⟩ := hcon
      have h100 : giAt ⟨_nz total, _nz s1, _nz s2, _nz s3, 0⟩ = 100 :=
        giAt_capped _ (nz_nonneg s1) (nz_nonneg s2) (nz_nonneg s3)
          (not_lt.mpr hc1) (not_lt.mpr hc2) (not_lt.mpr hc3)
      have heq : (compute_scores total s1 s2 s3 none none).gi
          = giAt ⟨_nz total, _nz s1, _nz s2, _nz s3, 0⟩ := by
        rw [giAt_eq _ (nz_nonneg s1) (nz_nonneg s2) (nz_nonneg s3)]
        rfl
      rw [heq, h100] at hgi
      norm_num at hgi
    · rw [backsolve_eq, if_neg (not_le.mpr hgi)]
      apply backLoop_ge 2000
      · exact nz_nonneg s1
      · exact nz_nonneg s2
      · exact nz_nonneg s3
      · show (compute_scores total s1 s2 s3 none none).gi = giAt _
        rw [giAt_eq _ (nz_nonneg s1) (nz_nonneg s2) (nz_nonneg s3)]
        rfl
      · have m1 : stepsFor 1600 (_nz s1) ≤ 16 := stepsFor_le 16 (nz_nonneg s1) (by norm_num)
        have m2 : stepsFor 4900 (_nz s2) ≤ 49 := stepsFor_le 49 (nz_nonneg s2) (by norm_num)
        have m3 : stepsFor 6400 (_nz s3) ≤ 64 := stepsFor_le 64 (nz_nonneg s3) (by norm_num)
        have hms : bmeasure ⟨(compute_scores total s1 s2 s3 none none).inputs.total,
            (compute_scores total s1 s2 s3 none none).inputs.s1,
            (compute_scores total s1 s2 s3 none none).inputs.s2,
            (compute_scores total s1 s2 s3 none none).inputs.s3,
            (compute_scores total s1 s2 s3 none none).gi⟩
            = stepsFor 1600 (_nz s1) + stepsFor 4900 (_nz s2) + stepsFor 6400 (_nz s3) := rfl
        rw [hms]
        omega

theorem c9_backsolve_witness :
    (rawScore (_nz (.num 1500)) 4000 40 < 40 ∨ rawScore (_nz (.num 0)) 7000 70 < 70
      ∨ rawScore (_nz (.num 0)) 8000 80 < 80) ∧
    40 ≤ ((backsolve none none 40 (.num 0) (.num 1500) (.num 0) (.num 0)).1).gi :=
  (c9_backsolve_planner none none 0 0 ⟨0, 0, 0, 0, 0⟩
      (.num 0) (.num 1500) (.num 0) (.num 0)).2.2
    (by norm_num [compute_scores, capsOf, weightsOf, defaultCaps, defaultWeights,
      wsOf, w1Of, w2Of, w3Of, nzq, _nz, effTotal, otherOf, denomOf, rawScore, normScore,
      clampGI, round_to, roundHE, max_def, min_def])
